import Mathlib

/-!
gloat: migration collections, reconciliation and the SQL executor.

A shallow embedding of `migration.go` and `executor.go`.

* A `Migration` is a record; a `Migrations` value is a Go slice of non-nil
  `*Migration`, embedded as a list of records.
* `Version` is an `int64`. The code only compares versions and uses them as map
  keys, it never does arithmetic on them, so `Int` is exact here.
* A Go `map[int64]bool` is embedded as a total function `Int → Bool`; reading a
  key that was never written yields the zero value `false`, as in Go.
* `[]byte` is a list of bytes, and `nil` and the empty slice are both `[]`
  (the code only ever looks at `len`).
* `sort.Sort` belongs to the Go standard library. The routine is a parameter
  `sortSort` of everything that sorts, constrained by `SortContract`, which is
  what the package documents; `insertionSort` and the ShellSort pass of the
  package are embedded as two concrete routines that meet the contract.
* Collaborators (Source, Store, the database handle, its transactions) are
  state transformers on a world `σ`; every call on one of them is recorded in
  the `calls` of the `Run`.
-/

namespace Gloat

/-- A Go byte slice; also the bytes of the Go string obtained by `string(b)`. -/
abbrev Bytes := List UInt8

/-- The struct `Migration` of migration.go. -/
structure Migration where
  UpSQL : Bytes
  DownSQL : Bytes
  Path : String
  Version : Int
deriving DecidableEq, Repr

/-- The method `Reversible`: `len(m.DownSQL) != 0`. -/
def Migration.Reversible (m : Migration) : Bool :=
  m.DownSQL.length != 0

/-- The method `Persistable`: `m.Path != ""`. -/
def Migration.Persistable (m : Migration) : Bool :=
  m.Path != ""

/-- The type `Migrations`, a slice of migration pointers. -/
abbrev Migrations := List Migration

/-- A Go `map[int64]bool`. -/
abbrev VersionMap := Int → Bool

/-- The map literal `map[int64]bool{}`. -/
def VersionMap.empty : VersionMap := fun _ => false

/-- The assignment `mp[k] = v`. -/
def VersionMap.set (mp : VersionMap) (k : Int) (v : Bool) : VersionMap :=
  fun x => if x = k then v else mp x

/-- The method `Except`. Two range loops fill the maps `current` and `new`,
two more append to `excepted`. -/
def Migrations.Except (m migrations : Migrations) : Migrations :=
  let current : VersionMap :=
    m.foldl (fun mp migration => mp.set migration.Version true) VersionMap.empty
  let new : VersionMap :=
    migrations.foldl (fun mp migration => mp.set migration.Version true) VersionMap.empty
  let excepted : Migrations := []
  let excepted :=
    m.foldl (fun acc migration =>
      if !new migration.Version then acc ++ [migration] else acc) excepted
  let excepted :=
    migrations.foldl (fun acc migration =>
      if !current migration.Version then acc ++ [migration] else acc) excepted
  excepted

/-- The versions occurring in a collection. -/
def Migrations.versions (m : Migrations) : List Int :=
  m.map Migration.Version

/-! ## Migrations as a `sort.Interface` -/

/-- The method `Len`: `len(m)`. -/
def Migrations.Len (m : Migrations) : Nat :=
  m.length

/-- The method `Less`: `m[i].Version < m[j].Version`. Go panics on an index out
of range; the sort package only passes indices below `Len`, and for any other
index this embedding answers `false`. -/
def Migrations.Less (m : Migrations) (i j : Nat) : Bool :=
  match m[i]?, m[j]? with
  | some a, some b => decide (a.Version < b.Version)
  | _, _ => false

/-- The method `Swap`: `m[i], m[j] = m[j], m[i]`. For an index out of range
(a panic in Go, never requested by the sort package) the slice is left as is. -/
def Migrations.Swap (m : Migrations) (i j : Nat) : Migrations :=
  match m[i]?, m[j]? with
  | some a, some b => (m.set i b).set j a
  | _, _ => m

/-- The slice `m2` is what `m1` becomes after finitely many calls of `Swap`
with indices below `Len`: the only way `sort.Sort` can change its argument. -/
inductive SwapReach : Migrations → Migrations → Prop
  | refl (m : Migrations) : SwapReach m m
  | step (m1 m2 : Migrations) (i j : Nat) :
      i < m1.Len → j < m1.Len → SwapReach (m1.Swap i j) m2 → SwapReach m1 m2

/-- What the sort package documents for `sort.Sort(data)`, read for a routine
`sortSort` that is run on a `Migrations` value: it works on the data through
`Len`, `Less` and `Swap` only, and it leaves the data in ascending order as
determined by `Less` (no later element is `Less` than an earlier one). The
package says "the sort is not guaranteed to be stable", and nothing on the
order of equal elements is part of this contract. -/
def SortContract (sortSort : Migrations → Migrations) : Prop :=
  ∀ m : Migrations,
    SwapReach m (sortSort m) ∧
    ∀ i j : Nat, i < j → j < (sortSort m).Len → (sortSort m).Less j i = false

/-- The method `Sort`: `sort.Sort(m)`. The routine of the sort package is the
parameter `sortSort`; the slice after the in-place sort is the result. -/
def Migrations.Sort (sortSort : Migrations → Migrations) (m : Migrations) : Migrations :=
  sortSort m

/-- The method `Current`: sort, then `nil` for an empty slice and the last
element otherwise. (The sort is in place, so the slice of the caller is
reordered as well; the returned pointer is what is modelled.) -/
def Migrations.Current (sortSort : Migrations → Migrations) (m : Migrations) :
    Option Migration :=
  let m := m.Sort sortSort
  if m.Len = 0 then none else m[m.Len - 1]?

/-! ## Routines of the sort package -/

/-- The inner loop of `insertionSort` of the sort package:
`for j := i; j > a && data.Less(j, j-1); j-- { data.Swap(j, j-1) }`. -/
def insertionSortInner (a : Nat) : Nat → Migrations → Migrations
  | 0, data => data
  | j + 1, data =>
    if decide (j + 1 > a) && data.Less (j + 1) j then
      insertionSortInner a j (data.Swap (j + 1) j)
    else data

/-- The function `insertionSort(data, a, b)` of the sort package:
`for i := a + 1; i < b; i++ { inner loop }`. -/
def insertionSort (data : Migrations) (a b : Nat) : Migrations :=
  (List.range' (a + 1) (b - (a + 1))).foldl (fun data i => insertionSortInner a i data) data

/-- What `sort.Sort` does on a slice of at most 12 elements in the Go releases
since 1.19 (`pdqsort` hands such a slice to `insertionSort` at once). As a
routine on slices of any length it sorts as well. -/
def sortInsertion (data : Migrations) : Migrations :=
  insertionSort data 0 data.Len

/-- The ShellSort pass of `quickSort` in the Go releases 1.6 to 1.18:
`for i := a + 6; i < b; i++ { if data.Less(i, i-6) { data.Swap(i, i-6) } }`. -/
def shellPass (data : Migrations) (a b : Nat) : Migrations :=
  (List.range' (a + 6) (b - (a + 6))).foldl
    (fun data i => if data.Less i (i - 6) then data.Swap i (i - 6) else data) data

/-- What `sort.Sort` does on a slice of at most 12 elements in the Go releases
1.6 to 1.18: `quickSort` skips its partitioning loop (`for b-a > 12`), makes one
ShellSort pass with gap 6 when `b-a > 1` and finishes with `insertionSort`. As a
routine on slices of any length it sorts as well. -/
def sortShellInsertion (data : Migrations) : Migrations :=
  if data.Len - 0 > 1 then insertionSort (shellPass data 0 data.Len) 0 data.Len else data

/-- Ascending by Version: each element is at most every later one. -/
def Migrations.Ascending (m : Migrations) : Prop :=
  m.Pairwise (fun a b => a.Version ≤ b.Version)

/-- Migrations of equal Version are in the same relative order in `m1` and `m2`:
for each version the migrations carrying it form the same sequence. -/
def Migrations.SameOrderOfEquals (m1 m2 : Migrations) : Prop :=
  ∀ v : Int, m1.filter (fun x => decide (x.Version = v)) = m2.filter (fun x => decide (x.Version = v))

/-! ## Collaborators: Source, Store, the database handle and its transactions -/

/-- A Go `error` value: the `IrreversibleError` of executor.go, or any other
error handed over by a collaborator. -/
inductive Error where
  | IrreversibleError (Version : Int)
  | other (msg : String)
deriving DecidableEq, Repr

/-- A `*sql.Tx` handle. -/
structure Tx where
  id : Nat
deriving DecidableEq, Repr

/-- One call made on a collaborator, with its arguments. -/
inductive Call where
  | SourceCollect
  | StoreCollect
  | Begin
  | Exec (tx : Tx) (query : Bytes)
  | Rollback (tx : Tx)
  | Commit (tx : Tx)
  | Insert (migration : Migration) (tx : Tx)
  | Remove (migration : Migration) (tx : Tx)
deriving DecidableEq, Repr

/-- The interface `Source`, as far as the code uses it: `Collect`. The type `σ`
is the state of the world the collaborators live in; a call returns its Go
results and the next state. -/
structure Source (σ : Type) where
  Collect : σ → Except Error Migrations × σ

/-- The interface `Store`, as far as the code uses it: `Collect`, and `Insert`
and `Remove` that take the migration and the transaction. -/
structure Store (σ : Type) where
  Collect : σ → Except Error Migrations × σ
  Insert : Migration → Tx → σ → Option Error × σ
  Remove : Migration → Tx → σ → Option Error × σ

/-- The interface `SQLExecer`, as far as the executor uses it: `Begin`. -/
structure SQLExecer (σ : Type) where
  Begin : σ → Except Error Tx × σ

/-- The methods of `*sql.Tx` the executor calls (`Exec` with its `sql.Result`
dropped, as the executor drops it). -/
structure SQLTx (σ : Type) where
  Exec : Tx → Bytes → σ → Option Error × σ
  Rollback : Tx → σ → Option Error × σ
  Commit : Tx → σ → Option Error × σ

/-- The struct `SQLExecutor`. -/
structure SQLExecutor (σ : Type) where
  db : SQLExecer σ

/-- A run in progress: the state of the world, and the calls made so far on
the collaborators, oldest first. -/
structure Run (σ : Type) where
  world : σ
  calls : List Call

/-- The start of a run in world `w`: nothing has been called yet. -/
def Run.start {σ : Type} (w : σ) : Run σ :=
  { world := w, calls := [] }

/-- The call `source.Collect()`, recorded. -/
def Source.callCollect {σ : Type} (source : Source σ) (s : Run σ) :
    Except Error Migrations × Run σ :=
  ((source.Collect s.world).1,
    { world := (source.Collect s.world).2, calls := s.calls ++ [Call.SourceCollect] })

/-- The call `store.Collect()`, recorded. -/
def Store.callCollect {σ : Type} (store : Store σ) (s : Run σ) :
    Except Error Migrations × Run σ :=
  ((store.Collect s.world).1,
    { world := (store.Collect s.world).2, calls := s.calls ++ [Call.StoreCollect] })

/-- The call `store.Insert(migration, tx)`, recorded. -/
def Store.callInsert {σ : Type} (store : Store σ) (migration : Migration) (tx : Tx)
    (s : Run σ) : Option Error × Run σ :=
  ((store.Insert migration tx s.world).1,
    { world := (store.Insert migration tx s.world).2,
      calls := s.calls ++ [Call.Insert migration tx] })

/-- The call `store.Remove(migration, tx)`, recorded. -/
def Store.callRemove {σ : Type} (store : Store σ) (migration : Migration) (tx : Tx)
    (s : Run σ) : Option Error × Run σ :=
  ((store.Remove migration tx s.world).1,
    { world := (store.Remove migration tx s.world).2,
      calls := s.calls ++ [Call.Remove migration tx] })

/-- The call `db.Begin()`, recorded. -/
def SQLExecer.callBegin {σ : Type} (db : SQLExecer σ) (s : Run σ) :
    Except Error Tx × Run σ :=
  ((db.Begin s.world).1,
    { world := (db.Begin s.world).2, calls := s.calls ++ [Call.Begin] })

/-- The call `tx.Exec(query)`, recorded. -/
def SQLTx.callExec {σ : Type} (sqlTx : SQLTx σ) (tx : Tx) (query : Bytes) (s : Run σ) :
    Option Error × Run σ :=
  ((sqlTx.Exec tx query s.world).1,
    { world := (sqlTx.Exec tx query s.world).2, calls := s.calls ++ [Call.Exec tx query] })

/-- The call `tx.Rollback()`, recorded. -/
def SQLTx.callRollback {σ : Type} (sqlTx : SQLTx σ) (tx : Tx) (s : Run σ) :
    Option Error × Run σ :=
  ((sqlTx.Rollback tx s.world).1,
    { world := (sqlTx.Rollback tx s.world).2, calls := s.calls ++ [Call.Rollback tx] })

/-- The call `tx.Commit()`, recorded. -/
def SQLTx.callCommit {σ : Type} (sqlTx : SQLTx σ) (tx : Tx) (s : Run σ) :
    Option Error × Run σ :=
  ((sqlTx.Commit tx s.world).1,
    { world := (sqlTx.Commit tx s.world).2, calls := s.calls ++ [Call.Commit tx] })

/-- The function `UnappliedMigrations`. `Except.error err` is the Go return
`(nil, err)`, and `Except.ok ms` is `(ms, nil)`. -/
def UnappliedMigrations {σ : Type} (sortSort : Migrations → Migrations)
    (source : Source σ) (store : Store σ) (s : Run σ) :
    Except Error Migrations × Run σ :=
  match source.callCollect s with
  | (.error err, s) => (.error err, s)
  | (.ok allMigrations, s) =>
    match store.callCollect s with
    | (.error err, s) => (.error err, s)
    | (.ok appliedMigrations, s) =>
      let unappliedMigrations := allMigrations.Except appliedMigrations
      let unappliedMigrations := unappliedMigrations.Sort sortSort
      (.ok unappliedMigrations, s)

/-- The method `SQLExecutor.Up`. The return value `none` is a nil error; the
result of `tx.Rollback()` is dropped, as in the code. -/
def SQLExecutor.Up {σ : Type} (e : SQLExecutor σ) (sqlTx : SQLTx σ)
    (migration : Migration) (store : Store σ) (s : Run σ) : Option Error × Run σ :=
  match e.db.callBegin s with
  | (.error err, s) => (some err, s)
  | (.ok tx, s) =>
    match sqlTx.callExec tx migration.UpSQL s with
    | (some err, s) => (some err, (sqlTx.callRollback tx s).2)
    | (none, s) =>
      match store.callInsert migration tx s with
      | (some err, s) => (some err, (sqlTx.callRollback tx s).2)
      | (none, s) => sqlTx.callCommit tx s

/-- The method `SQLExecutor.Down`. The return value `none` is a nil error. -/
def SQLExecutor.Down {σ : Type} (e : SQLExecutor σ) (sqlTx : SQLTx σ)
    (migration : Migration) (store : Store σ) (s : Run σ) : Option Error × Run σ :=
  if !migration.Reversible then
    (some (Error.IrreversibleError migration.Version), s)
  else
    match e.db.callBegin s with
    | (.error err, s) => (some err, s)
    | (.ok tx, s) =>
      match sqlTx.callExec tx migration.DownSQL s with
      | (some err, s) => (some err, (sqlTx.callRollback tx s).2)
      | (none, s) =>
        match store.callRemove migration tx s with
        | (some err, s) => (some err, s)
        | (none, s) => sqlTx.callCommit tx s

/-! ## Concrete values used in the worked cases -/

/-- A migration that carries only a version, as the tests build them. -/
def mkVersion (v : Int) : Migration :=
  { UpSQL := [], DownSQL := [], Path := "", Version := v }

/-- A migration with a version and a path. -/
def mkNamed (v : Int) (path : String) : Migration :=
  { UpSQL := [], DownSQL := [], Path := path, Version := v }

/-- Seven migrations; the first two share version 2 and differ in their path. -/
def sevenMigrations : Migrations :=
  [mkNamed 2 "a", mkNamed 2 "b", mkVersion 3, mkVersion 4, mkVersion 5, mkVersion 6, mkVersion 1]


/-- A world that only counts the calls it has served. -/
abbrev Counter := Nat

/-- A source that hands out the given migrations. -/
def fixedSource (ms : Migrations) : Source Counter :=
  { Collect := fun w => (Except.ok ms, w + 1) }

/-- A store that hands out the given migrations and accepts every write. -/
def fixedStore (ms : Migrations) : Store Counter :=
  { Collect := fun w => (Except.ok ms, w + 1)
    Insert := fun _ _ w => (none, w + 1)
    Remove := fun _ _ w => (none, w + 1) }

/-- A database handle whose `Begin` hands out transaction 7. -/
def goodDB : SQLExecer Counter :=
  { Begin := fun w => (Except.ok { id := 7 }, w + 1) }

/-- Transactions on which every call succeeds. -/
def goodTx : SQLTx Counter :=
  { Exec := fun _ _ w => (none, w + 1)
    Rollback := fun _ w => (none, w + 1)
    Commit := fun _ w => (none, w + 1) }

/-- The migration of the scenario in the spec: version 100, up content
"CREATE TABLE t" (as bytes), no down content. -/
def createTable : Migration :=
  { UpSQL := [67, 82, 69, 65, 84, 69, 32, 84, 65, 66, 76, 69, 32, 116]
    DownSQL := []
    Path := "100_create"
    Version := 100 }

/-- The error that a failing collaborator hands over in the worked cases. -/
def lostConnection : Error :=
  Error.other ("connection lost")

/-- A source whose `Collect` fails. -/
def failingSource : Source Counter :=
  { Collect := fun w => (Except.error lostConnection, w + 1) }

/-- A store whose `Collect` fails and that accepts every write. -/
def storeCollectFails : Store Counter :=
  { Collect := fun w => (Except.error lostConnection, w + 1)
    Insert := fun _ _ w => (none, w + 1)
    Remove := fun _ _ w => (none, w + 1) }

/-- A store whose `Insert` fails. -/
def storeInsertFails : Store Counter :=
  { Collect := fun w => (Except.ok [], w + 1)
    Insert := fun _ _ w => (some lostConnection, w + 1)
    Remove := fun _ _ w => (none, w + 1) }

/-- A store whose `Remove` fails. -/
def storeRemoveFails : Store Counter :=
  { Collect := fun w => (Except.ok [], w + 1)
    Insert := fun _ _ w => (none, w + 1)
    Remove := fun _ _ w => (some lostConnection, w + 1) }

/-- A database handle whose `Begin` fails. -/
def badDB : SQLExecer Counter :=
  { Begin := fun w => (Except.error lostConnection, w + 1) }

/-- Transactions on which `Exec` fails. -/
def execFailsTx : SQLTx Counter :=
  { Exec := fun _ _ w => (some lostConnection, w + 1)
    Rollback := fun _ w => (none, w + 1)
    Commit := fun _ w => (none, w + 1) }

/-- Transactions on which `Commit` fails. -/
def commitFailsTx : SQLTx Counter :=
  { Exec := fun _ _ w => (none, w + 1)
    Rollback := fun _ w => (none, w + 1)
    Commit := fun _ w => (some lostConnection, w + 1) }

/-- A reversible migration: version 100, up content "CREATE TABLE t" and down
content "DROP TABLE t" (as bytes). -/
def dropTable : Migration :=
  { UpSQL := [67, 82, 69, 65, 84, 69, 32, 84, 65, 66, 76, 69, 32, 116]
    DownSQL := [68, 82, 79, 80, 32, 84, 65, 66, 76, 69, 32, 116]
    Path := "100_create"
    Version := 100 }

/-! ## Paths and versions

Go strings are embedded as text: a `String`, or its list of runes where the
library functions walk over it. The library functions used by migration.go
are embedded from their documentation and source for a Unix system:
`filepath.Base`, `strings.SplitN` with a one-rune separator, `strconv.ParseInt`
for base 10 and 64 bits, the verb `%d` of `fmt.Sprintf`, `strings.ToLower` and
`ReplaceAllString` for the one pattern of `nameNormalizerRe`. The two
`strconv` errors are told apart by their text only; the `NumError` wrapper
around them is not modelled. -/

/-- The function `os.IsPathSeparator` on Unix. -/
def IsPathSeparator (c : Char) : Bool :=
  c == '/'

/-- The function `filepath.Base` on Unix (no volume names): "." for the empty
path; otherwise trailing separators are stripped, the text after the last
separator is kept, and "/" is returned when nothing is left. -/
def filepathBase (path : List Char) : List Char :=
  if path = [] then ['.']
  else
    let path := (path.reverse.dropWhile IsPathSeparator).reverse
    let path := (path.reverse.takeWhile (fun c => !IsPathSeparator c)).reverse
    if path = [] then ['/'] else path

/-- The text before the first occurrence of `sep` and the text after it, when
`sep` occurs: `strings.Index` and the two slicings of `genSplit`. -/
def cutAtFirst (sep : Char) : List Char → Option (List Char × List Char)
  | [] => none
  | c :: s =>
    if c = sep then some ([], s)
    else
      match cutAtFirst sep s with
      | some (a, rest) => some (c :: a, rest)
      | none => none

/-- The function `strings.SplitN(s, sep, n)` for a separator of one rune and
`n ≥ 0`: at most `n` substrings, the last one being the unsplit remainder. -/
def SplitN (s : List Char) (sep : Char) : Nat → List (List Char)
  | 0 => []
  | n + 1 =>
    if n = 0 then [s]
    else
      match cutAtFirst sep s with
      | some (a, rest) => a :: SplitN rest sep n
      | none => [s]

/-- The error `strconv.ErrSyntax`. -/
def ErrSyntax : Error :=
  Error.other ("invalid syntax")

/-- The error `strconv.ErrRange`. -/
def ErrRange : Error :=
  Error.other ("value out of range")

/-- The largest `uint64`. -/
def maxUint64 : Nat :=
  2 ^ 64 - 1

/-- The loop of `strconv.ParseUint` for base 10 and 64 bits, with the value read
so far: a rune that is no decimal digit is a syntax error, a value beyond
`maxUint64` is a range error (reported with the largest value). -/
def ParseUintLoop : List Char → Nat → Nat × Option Error
  | [], n => (n, none)
  | d :: s, n =>
    if '0' ≤ d ∧ d ≤ '9' then
      if n ≥ maxUint64 / 10 + 1 then (maxUint64, some ErrRange)
      else if n * 10 + (d.toNat - '0'.toNat) > maxUint64 then (maxUint64, some ErrRange)
      else ParseUintLoop s (n * 10 + (d.toNat - '0'.toNat))
    else (0, some ErrSyntax)

/-- The function `strconv.ParseUint(s, 10, 64)`. -/
def ParseUint (s : List Char) : Nat × Option Error :=
  if s = [] then (0, some ErrSyntax) else ParseUintLoop s 0

/-- The conversion to `int64`: the value modulo 2^64, in the signed range. -/
def toInt64 (x : Int) : Int :=
  (x + 2 ^ 63) % 2 ^ 64 - 2 ^ 63

/-- The function `strconv.ParseInt(s, 10, 64)`: an optional sign, then
`ParseUint`; a syntax error yields 0, a magnitude out of range yields the
nearest bound together with the range error. -/
def ParseInt (s : List Char) : Int × Option Error :=
  match s with
  | [] => (0, some ErrSyntax)
  | c :: t =>
    let neg := decide (c = '-')
    let s := if c = '+' ∨ c = '-' then t else c :: t
    match ParseUint s with
    | (un, some err) =>
      if err ≠ ErrRange then (0, some err)
      else if !neg && decide (un ≥ 2 ^ 63) then (2 ^ 63 - 1, some ErrRange)
      else if neg && decide (un > 2 ^ 63) then (-(2 ^ 63), some ErrRange)
      else (if neg then toInt64 (-(toInt64 un)) else toInt64 un, none)
    | (un, none) =>
      if !neg && decide (un ≥ 2 ^ 63) then (2 ^ 63 - 1, some ErrRange)
      else if neg && decide (un > 2 ^ 63) then (-(2 ^ 63), some ErrRange)
      else (if neg then toInt64 (-(toInt64 un)) else toInt64 un, none)

/-- The function `versionFromPath`: the Go results `(int64, error)`. -/
def versionFromPath (path : String) : Int × Option Error :=
  let parts := SplitN (filepathBase path.data) '_' 2
  match parts with
  | [] => (0, some (Error.other ("cannot extract version from " ++ path)))
  | p :: _ => ParseInt p

/-- The decimal digit `d` as a rune. -/
def digitChar (d : Nat) : Char :=
  Char.ofNat ('0'.toNat + d)

/-- The decimal digits of `n`, most significant first; `fuel` bounds the number
of digits and any `fuel > n` is enough. -/
def natDecimal : Nat → Nat → List Char
  | 0, _ => []
  | fuel + 1, n =>
    if n < 10 then [digitChar n] else natDecimal fuel (n / 10) ++ [digitChar (n % 10)]

/-- The verb `%d` of `fmt.Sprintf` on an integer: a minus sign for a negative
value, then the decimal digits of the magnitude. -/
def formatDecimal (v : Int) : List Char :=
  if v < 0 then '-' :: natDecimal (v.natAbs + 1) v.natAbs
  else natDecimal (v.natAbs + 1) v.natAbs

/-- The call `nameNormalizerRe.ReplaceAllString(str, "${1}_${2}")` for the
pattern `([a-z])([A-Z])`: scanning from the left, each lower-case ASCII letter
directly followed by an upper-case ASCII letter gets an underscore between the
two, and the scan goes on after the pair. -/
def nameNormalize : List Char → List Char
  | [] => []
  | [a] => [a]
  | a :: b :: rest =>
    if ('a' ≤ a ∧ a ≤ 'z') ∧ ('A' ≤ b ∧ b ≤ 'Z') then a :: '_' :: b :: nameNormalize rest
    else a :: nameNormalize (b :: rest)

/-- The function `unicode.ToLower` on one rune: the ASCII rule up to
`unicode.MaxASCII`, and the case tables of the package, the parameter
`caseTable`, for every other rune. -/
def unicodeToLower (caseTable : Char → Char) (r : Char) : Char :=
  if r.toNat ≤ 127 then
    if 'A' ≤ r ∧ r ≤ 'Z' then Char.ofNat (r.toNat + ('a'.toNat - 'A'.toNat)) else r
  else caseTable r

/-- The function `strings.ToLower`: `unicode.ToLower` on every rune. -/
def ToLower (caseTable : Char → Char) (s : List Char) : List Char :=
  s.map (unicodeToLower caseTable)

/-- The function `generateMigrationPath`: `fmt.Sprintf("%d_%s", version, name)`
with the normalised, lower-cased name. -/
def generateMigrationPath (caseTable : Char → Char) (version : Int) (str : String) : String :=
  let name := ToLower caseTable (nameNormalize str.data)
  String.mk (formatDecimal version ++ '_' :: name)

/-- The function `GenerateMigration`. `generateVersion()` reads the clock of
the process; what it returned is the parameter `version`. -/
def GenerateMigration (caseTable : Char → Char) (version : Int) (str : String) : Migration :=
  let path := generateMigrationPath caseTable version str
  { UpSQL := [], DownSQL := [], Path := path, Version := version }

/-- The function `MigrationFromBytes`. A reader `fn` returns its two Go results,
the bytes and the error; `filepathJoin` is `filepath.Join`. The error of the
second read is dropped and its bytes are kept, as in the code. -/
def MigrationFromBytes (filepathJoin : String → String → String) (path : String)
    (fn : String → Bytes × Option Error) : Except Error Migration :=
  match versionFromPath path with
  | (_, some err) => Except.error err
  | (version, none) =>
    match fn (filepathJoin path "up.sql") with
    | (_, some err) => Except.error err
    | (upSQL, none) =>
      let downSQL := (fn (filepathJoin path "down.sql")).1
      Except.ok { UpSQL := upSQL, DownSQL := downSQL, Path := path, Version := version }

/-- A stand-in for `filepath.Join` on two clean elements: a slash in between. -/
def joinWithSlash (dir name : String) : String :=
  dir ++ "/" ++ name

/-- A reader that knows `up.sql` of one migration directory and fails on every
other name, as a file system without `down.sql` does. -/
def readerUpOnly (name : String) : Bytes × Option Error :=
  if name = "testdata/migrations/20170329154959_users/up.sql" then
    ([67, 82, 69, 65, 84, 69, 32, 84, 65, 66, 76, 69, 32, 116], none)
  else ([], some (Error.other ("no such file")))

/-! ## The maps built by `Except` -/

theorem foldl_set_apply (l : Migrations) (mp : VersionMap) (v : Int) :
    (l.foldl (fun mp migration => mp.set migration.Version true) mp) v
      = (mp v || decide (v ∈ l.versions)) := by
  induction l generalizing mp with
  | nil => simp [Migrations.versions]
  | cons a t ih =>
    rw [List.foldl_cons, ih]
    by_cases h : v = a.Version
    · simp [VersionMap.set, Migrations.versions, h]
    · simp [VersionMap.set, Migrations.versions, h]

theorem versionSet_apply (l : Migrations) (v : Int) :
    (l.foldl (fun mp migration => mp.set migration.Version true) VersionMap.empty) v
      = decide (v ∈ l.versions) := by
  rw [foldl_set_apply]; simp [VersionMap.empty]

theorem foldl_append_filter (p : Migration → Bool) (l acc : Migrations) :
    l.foldl (fun acc migration => if p migration then acc ++ [migration] else acc) acc
      = acc ++ l.filter p := by
  induction l generalizing acc with
  | nil => simp
  | cons a t ih =>
    rw [List.foldl_cons, ih]
    by_cases h : p a <;> simp [h]

theorem Except_eq (A B : Migrations) :
    A.Except B
      = A.filter (fun x => decide (x.Version ∉ B.versions))
        ++ B.filter (fun x => decide (x.Version ∉ A.versions)) := by
  unfold Migrations.Except
  simp only [foldl_append_filter, List.nil_append]
  congr 1
  · apply List.filter_congr
    intro x _
    rw [versionSet_apply]; simp
  · apply List.filter_congr
    intro x _
    rw [versionSet_apply]; simp

/-- C1: for all collections A and B, `A.Except(B)` is the migrations of A whose
Version occurs in no migration of B, in the order of A, followed by the
migrations of B whose Version occurs in no migration of A, in the order of B;
nothing is re-sorted. -/
theorem C1_Except_two_pass (A B : Migrations) :
    A.Except B
      = A.filter (fun x => decide (∀ y ∈ B, y.Version ≠ x.Version))
        ++ B.filter (fun x => decide (∀ y ∈ A, y.Version ≠ x.Version)) := by
  rw [Except_eq]
  congr 1 <;>
  · apply List.filter_congr
    intro x _
    simp [Migrations.versions]

/-! ## `Swap` and `Less` on lists -/

theorem Swap_length (m : Migrations) (i j : Nat) : (m.Swap i j).Len = m.Len := by
  unfold Migrations.Swap Migrations.Len
  split <;> simp

theorem cons_set_perm (t : Migrations) (k : Nat) (a b : Migration) (h : t[k]? = some b) :
    (b :: t.set k a).Perm (a :: t) := by
  induction t generalizing k with
  | nil => simp at h
  | cons c t ih =>
    cases k with
    | zero =>
      simp at h
      subst h
      simpa using List.Perm.swap a c t
    | succ k =>
      simp at h
      have h1 := ih k h
      calc (b :: (c :: t).set (k + 1) a).Perm (c :: b :: t.set k a) := by
              simpa using List.Perm.swap c b (t.set k a)
        _ |>.Perm (c :: a :: t) := List.Perm.cons c h1
        _ |>.Perm (a :: c :: t) := List.Perm.swap a c t

theorem Swap_perm (m : Migrations) (i j : Nat) : (m.Swap i j).Perm m := by
  unfold Migrations.Swap
  split
  next a b ha hb =>
    induction m generalizing i j with
    | nil => simp at ha
    | cons c t ih =>
      cases i with
      | zero =>
        cases j with
        | zero =>
          simp at ha hb
          subst ha
          subst hb
          simp
        | succ j =>
          simp at ha hb
          subst ha
          simpa using cons_set_perm t j c b hb
      | succ i =>
        cases j with
        | zero =>
          simp at ha hb
          subst hb
          simpa using cons_set_perm t i c a ha
        | succ j =>
          simp at ha hb
          simpa using ih i j ha hb
  next => exact List.Perm.refl m

theorem SwapReach_perm {m1 m2 : Migrations} (h : SwapReach m1 m2) : m2.Perm m1 := by
  induction h with
  | refl m => exact List.Perm.refl m
  | step m1 m2 i j _ _ _ ih => exact ih.trans (Swap_perm m1 i j)

theorem SwapReach_length {m1 m2 : Migrations} (h : SwapReach m1 m2) : m2.Len = m1.Len := by
  simpa [Migrations.Len] using (SwapReach_perm h).length_eq

theorem SwapReach_trans {m1 m2 m3 : Migrations} (h12 : SwapReach m1 m2) (h23 : SwapReach m2 m3) :
    SwapReach m1 m3 := by
  induction h12 with
  | refl m => exact h23
  | step m1 m2 i j hi hj _ ih => exact SwapReach.step m1 m3 i j hi hj (ih h23)

theorem SwapReach_swap (m : Migrations) (i j : Nat) (hi : i < m.Len) (hj : j < m.Len) :
    SwapReach m (m.Swap i j) :=
  SwapReach.step m _ i j hi hj (SwapReach.refl _)

theorem Less_sorted_iff_Ascending (m : Migrations) :
    (∀ i j : Nat, i < j → j < m.Len → m.Less j i = false) ↔ m.Ascending := by
  unfold Migrations.Ascending Migrations.Len Migrations.Less
  rw [List.pairwise_iff_getElem]
  constructor
  · intro h i j hi hj hij
    have := h i j hij hj
    simpa [List.getElem?_eq_getElem hi, List.getElem?_eq_getElem hj] using this
  · intro h i j hij hj
    have hi : i < m.length := by omega
    have := h i j hi hj hij
    simpa [List.getElem?_eq_getElem hi, List.getElem?_eq_getElem hj] using this

theorem SortContract_perm {sortSort : Migrations → Migrations} (h : SortContract sortSort)
    (m : Migrations) : (m.Sort sortSort).Perm m :=
  SwapReach_perm (h m).1

theorem SortContract_ascending {sortSort : Migrations → Migrations} (h : SortContract sortSort)
    (m : Migrations) : (m.Sort sortSort).Ascending :=
  (Less_sorted_iff_Ascending _).1 (h m).2

/-! ## `insertionSort` meets the contract of `sort.Sort` -/

theorem getElem?_mid (l0 : Migrations) (y : Migration) (r : Migrations) :
    (l0 ++ y :: r)[l0.length]? = some y := by
  rw [List.getElem?_append_right (by omega)]
  simp

theorem getElem?_mid_succ (l0 : Migrations) (y x : Migration) (r : Migrations) :
    (l0 ++ y :: x :: r)[l0.length + 1]? = some x := by
  rw [List.getElem?_append_right (by omega)]
  simp

theorem Less_mid (l0 : Migrations) (y x : Migration) (r : Migrations) :
    (l0 ++ y :: x :: r).Less (l0.length + 1) l0.length = decide (x.Version < y.Version) := by
  unfold Migrations.Less
  rw [getElem?_mid_succ, getElem?_mid]

theorem Swap_mid (l0 : Migrations) (y x : Migration) (r : Migrations) :
    (l0 ++ y :: x :: r).Swap (l0.length + 1) l0.length = l0 ++ x :: y :: r := by
  unfold Migrations.Swap
  rw [getElem?_mid_succ, getElem?_mid]
  simp only
  rw [List.set_append_right _ _ (by omega)]
  rw [List.set_append_right _ _ (by simp)]
  simp

theorem insertionSortInner_reach (a : Nat) (j : Nat) (data : Migrations) (hj : j < data.Len) :
    SwapReach data (insertionSortInner a j data) := by
  induction j generalizing data with
  | zero => exact SwapReach.refl _
  | succ j ih =>
    unfold insertionSortInner
    split
    · have h1 : j < data.Len := by omega
      have h2 : j < (data.Swap (j + 1) j).Len := by rw [Swap_length]; exact h1
      exact SwapReach_trans (SwapReach_swap data (j + 1) j hj h1) (ih _ h2)
    · exact SwapReach.refl _

theorem insertionSortInner_spec (l : Migrations) :
    ∀ (x : Migration) (r : Migrations), l.Ascending →
      ∃ l2 : Migrations, insertionSortInner 0 l.length (l ++ x :: r) = l2 ++ r
        ∧ l2.Perm (l ++ [x]) ∧ l2.Ascending := by
  induction l using List.reverseRecOn with
  | nil =>
    intro x r _
    exact ⟨[x], by simp [insertionSortInner], List.Perm.refl _, by simp [Migrations.Ascending]⟩
  | append_singleton l0 y ih =>
    intro x r hl
    have hl0 : Migrations.Ascending l0 := by
      unfold Migrations.Ascending at hl ⊢
      exact (List.pairwise_append.1 hl).1
    have hly : ∀ z ∈ l0, z.Version ≤ y.Version := by
      unfold Migrations.Ascending at hl
      intro z hz
      exact (List.pairwise_append.1 hl).2.2 z hz y (by simp)
    have hlen : (l0 ++ [y]).length = l0.length + 1 := by simp
    have hd : l0 ++ [y] ++ x :: r = l0 ++ y :: x :: r := by simp
    rw [hlen, hd]
    unfold insertionSortInner
    rw [Less_mid, Swap_mid]
    by_cases hxy : x.Version < y.Version
    · obtain ⟨l2, h2, hp, hs⟩ := ih x (y :: r) hl0
      refine ⟨l2 ++ [y], ?_, ?_, ?_⟩
      · simp [hxy, h2]
      · calc (l2 ++ [y]).Perm ((l0 ++ [x]) ++ [y]) := hp.append_right [y]
          _ |>.Perm (l0 ++ [y] ++ [x]) := by
              simp only [List.append_assoc]
              exact List.Perm.append_left l0 (List.Perm.swap y x [])
      · unfold Migrations.Ascending at hs ⊢
        rw [List.pairwise_append]
        refine ⟨hs, by simp, ?_⟩
        intro z hz w hw
        simp at hw
        subst hw
        have hz2 : z ∈ l0 ++ [x] := hp.subset hz
        simp at hz2
        rcases hz2 with hz2 | hz2
        · exact hly z hz2
        · subst hz2; omega
    · refine ⟨l0 ++ [y] ++ [x], ?_, List.Perm.refl _, ?_⟩
      · simp [hxy]
      · unfold Migrations.Ascending at hl ⊢
        rw [List.pairwise_append]
        refine ⟨hl, by simp, ?_⟩
        intro z hz w hw
        simp at hw
        subst hw
        simp at hz
        rcases hz with hz | hz
        · have := hly z hz; omega
        · subst hz; omega

theorem foldl_reach (f : Migrations → Nat → Migrations) (n : Nat) (is : List Nat)
    (hf : ∀ (d : Migrations) (i : Nat), i ∈ is → d.Len = n → SwapReach d (f d i))
    (data : Migrations) (hd : data.Len = n) : SwapReach data (is.foldl f data) := by
  induction is generalizing data with
  | nil => exact SwapReach.refl _
  | cons i t ih =>
    rw [List.foldl_cons]
    have h1 : SwapReach data (f data i) := hf data i (by simp) hd
    have h2 : (f data i).Len = n := by rw [SwapReach_length h1]; exact hd
    exact SwapReach_trans h1 (ih (fun d k hk hdn => hf d k (by simp [hk]) hdn) _ h2)

theorem insertionSort_reach (data : Migrations) :
    SwapReach data (insertionSort data 0 data.Len) := by
  unfold insertionSort
  apply foldl_reach _ data.Len _ _ data rfl
  intro d i hi hd
  rw [List.mem_range'_1] at hi
  exact insertionSortInner_reach 0 i d (by omega)

theorem insertionSort_loop_sorted (cnt : Nat) :
    ∀ (k : Nat) (data : Migrations), k + cnt ≤ data.length →
      Migrations.Ascending (data.take k) →
      Migrations.Ascending
        (((List.range' k cnt).foldl (fun d i => insertionSortInner 0 i d) data).take (k + cnt)) := by
  induction cnt with
  | zero => intro k data _ h; simpa using h
  | succ cnt ih =>
    intro k data hk hs
    rw [List.range'_succ, List.foldl_cons]
    have hklt : k < data.length := by omega
    have hsplit : data = data.take k ++ data[k] :: data.drop (k + 1) := by
      rw [List.getElem_cons_drop, List.take_append_drop]
    have hlen : (data.take k).length = k := by
      rw [List.length_take]; omega
    obtain ⟨l2, h2, hp, hs2⟩ := insertionSortInner_spec (data.take k) data[k] (data.drop (k + 1)) hs
    rw [hlen, ← hsplit] at h2
    have hl2 : l2.length = k + 1 := by
      have := hp.length_eq
      simp at this
      omega
    have h3 : (insertionSortInner 0 k data).length = data.length := by
      have := SwapReach_length (insertionSortInner_reach 0 k data hklt)
      simpa [Migrations.Len] using this
    have h4 : (insertionSortInner 0 k data).take (k + 1) = l2 := by
      rw [h2]
      exact List.take_left' hl2
    have := ih (k + 1) (insertionSortInner 0 k data) (by omega) (by rw [h4]; exact hs2)
    have e : k + 1 + cnt = k + (cnt + 1) := by omega
    rw [e] at this
    exact this

theorem insertionSort_sorted (data : Migrations) :
    Migrations.Ascending (insertionSort data 0 data.Len) := by
  unfold insertionSort Migrations.Len
  cases data with
  | nil => simp [Migrations.Ascending]
  | cons a t =>
    have h := insertionSort_loop_sorted ((a :: t).length - (0 + 1)) (0 + 1) (a :: t)
      (by simp; omega) (by simp [Migrations.Ascending])
    have hlen : ((List.range' (0 + 1) ((a :: t).length - (0 + 1))).foldl
        (fun d i => insertionSortInner 0 i d) (a :: t)).length = (a :: t).length := by
      have := SwapReach_length (insertionSort_reach (a :: t))
      simpa [Migrations.Len, insertionSort] using this
    have e : 0 + 1 + ((a :: t).length - (0 + 1)) = (a :: t).length := by simp; omega
    rw [e] at h
    rw [List.take_of_length_le (by omega)] at h
    exact h

theorem sortInsertion_contract : SortContract sortInsertion := by
  intro m
  exact ⟨insertionSort_reach m, (Less_sorted_iff_Ascending _).2 (insertionSort_sorted m)⟩

theorem shellPass_reach (data : Migrations) : SwapReach data (shellPass data 0 data.Len) := by
  unfold shellPass
  apply foldl_reach _ data.Len _ _ data rfl
  intro d i hi hd
  rw [List.mem_range'_1] at hi
  split
  · exact SwapReach_swap d i (i - 6) (by omega) (by omega)
  · exact SwapReach.refl _

theorem sortShellInsertion_contract : SortContract sortShellInsertion := by
  intro m
  unfold sortShellInsertion
  split
  · have h1 := shellPass_reach m
    have h2 := SwapReach_length h1
    constructor
    · have h3 := insertionSort_reach (shellPass m 0 m.Len)
      rw [h2] at h3
      exact SwapReach_trans h1 h3
    · have h3 := insertionSort_sorted (shellPass m 0 m.Len)
      rw [h2] at h3
      exact (Less_sorted_iff_Ascending _).2 h3
  · constructor
    · exact SwapReach.refl _
    · intro i j hij hj
      omega

/-! ## Reconciliation -/

theorem Except_disjoint (A B : Migrations)
    (h : ∀ a ∈ A, ∀ b ∈ B, a.Version ≠ b.Version) : A.Except B = A ++ B := by
  rw [Except_eq]
  congr 1
  · rw [List.filter_eq_self]
    intro a ha
    simp only [Migrations.versions, List.mem_map, not_exists, not_and, decide_eq_true_eq]
    intro b hb hab
    exact h a ha b hb hab.symm
  · rw [List.filter_eq_self]
    intro b hb
    simp only [Migrations.versions, List.mem_map, not_exists, not_and, decide_eq_true_eq]
    intro a ha hab
    exact h a ha b hb hab

theorem mem_versions_Except (A B : Migrations) (v : Int) :
    v ∈ (A.Except B).versions
      ↔ (v ∈ A.versions ∧ v ∉ B.versions) ∨ (v ∈ B.versions ∧ v ∉ A.versions) := by
  rw [Except_eq]
  simp only [Migrations.versions, List.map_append, List.mem_append, List.mem_map,
    List.mem_filter, decide_eq_true_eq]
  constructor
  · rintro (⟨x, ⟨hx, hn⟩, rfl⟩ | ⟨x, ⟨hx, hn⟩, rfl⟩)
    · exact Or.inl ⟨⟨x, hx, rfl⟩, hn⟩
    · exact Or.inr ⟨⟨x, hx, rfl⟩, hn⟩
  · rintro (⟨⟨x, hx, rfl⟩, hn⟩ | ⟨⟨x, hx, rfl⟩, hn⟩)
    · exact Or.inl ⟨x, ⟨hx, hn⟩, rfl⟩
    · exact Or.inr ⟨x, ⟨hx, hn⟩, rfl⟩

theorem UnappliedMigrations_ok {σ : Type} (sortSort : Migrations → Migrations)
    (source : Source σ) (store : Store σ) (w w1 w2 : σ) (A B : Migrations)
    (hs : source.Collect w = (Except.ok A, w1)) (ht : store.Collect w1 = (Except.ok B, w2)) :
    UnappliedMigrations sortSort source store (Run.start w)
      = (Except.ok ((A.Except B).Sort sortSort),
          { world := w2, calls := [Call.SourceCollect, Call.StoreCollect] }) := by
  simp [UnappliedMigrations, Source.callCollect, Store.callCollect, Run.start, hs, ht]

theorem Except_eq_nil_iff (A B : Migrations) :
    A.Except B = [] ↔ ∀ v : Int, v ∈ A.versions ↔ v ∈ B.versions := by
  constructor
  · intro h v
    have := mem_versions_Except A B v
    rw [h] at this
    simp only [Migrations.versions, List.map_nil, List.not_mem_nil, false_iff, not_or,
      not_and, not_not] at this
    exact ⟨this.1, this.2⟩
  · intro h
    have hv : (A.Except B).versions = [] := by
      apply List.eq_nil_iff_forall_not_mem.2
      intro v hv
      rw [mem_versions_Except] at hv
      rcases hv with ⟨h1, h2⟩ | ⟨h1, h2⟩
      · exact h2 ((h v).1 h1)
      · exact h2 ((h v).2 h1)
    simpa [Migrations.versions] using hv

theorem Ascending_head_le (r : Migrations) (hr : r.Ascending) (x : Migration)
    (hx : r.head? = some x) : ∀ y ∈ r, x.Version ≤ y.Version := by
  cases r with
  | nil => simp at hx
  | cons a t =>
    simp at hx
    subst hx
    unfold Migrations.Ascending at hr
    intro y hy
    simp at hy
    rcases hy with hy | hy
    · subst hy; omega
    · exact (List.pairwise_cons.1 hr).1 y hy

theorem Ascending_getLast_ge (r : Migrations) (hr : r.Ascending) (x : Migration)
    (hx : r[r.length - 1]? = some x) : ∀ y ∈ r, y.Version ≤ x.Version := by
  unfold Migrations.Ascending at hr
  rw [List.pairwise_iff_getElem] at hr
  intro y hy
  obtain ⟨i, hi, rfl⟩ := List.getElem_of_mem hy
  have hlast : r.length - 1 < r.length := by omega
  rw [List.getElem?_eq_getElem hlast] at hx
  simp at hx
  subst hx
  by_cases hil : i = r.length - 1
  · subst hil; omega
  · exact hr i (r.length - 1) hi hlast (by omega)

/-- C2: for all collections A and B in which no Version of A equals a Version
of B, `A.Except(B)` is A followed by B, each half in its own order; in
particular `A.Except(empty) = A` and `empty.Except(B) = B`. -/
theorem C2_Except_disjoint (A B : Migrations)
    (h : ∀ a ∈ A, ∀ b ∈ B, a.Version ≠ b.Version) :
    A.Except B = A ++ B ∧ A.Except [] = A ∧ Migrations.Except [] B = B := by
  refine ⟨Except_disjoint A B h, ?_, ?_⟩
  · simpa using Except_disjoint A [] (by simp)
  · simpa using Except_disjoint [] B (by simp)

/-- Witness of C2: versions 3, 1 against versions 2, 5. -/
theorem C2_Except_disjoint_witness :
    (∀ a ∈ [mkVersion 3, mkVersion 1], ∀ b ∈ [mkVersion 2, mkVersion 5], a.Version ≠ b.Version)
      ∧ (Migrations.Except [mkVersion 3, mkVersion 1] [mkVersion 2, mkVersion 5]
            = [mkVersion 3, mkVersion 1] ++ [mkVersion 2, mkVersion 5]
          ∧ Migrations.Except [mkVersion 3, mkVersion 1] [] = [mkVersion 3, mkVersion 1]
          ∧ Migrations.Except [] [mkVersion 2, mkVersion 5] = [mkVersion 2, mkVersion 5]) :=
  ⟨by decide, C2_Except_disjoint [mkVersion 3, mkVersion 1] [mkVersion 2, mkVersion 5] (by decide)⟩

/-- C3: for all collections A and B, a Version occurs in `A.Except(B)` exactly
when it occurs in one of A and B and not in the other: the Versions of the
result are the symmetric difference of the Versions of A and of B. -/
theorem C3_Except_versions_symmetric_difference (A B : Migrations) (v : Int) :
    (v ∈ (A.Except B).versions
        ↔ (v ∈ A.versions ∧ v ∉ B.versions) ∨ (v ∈ B.versions ∧ v ∉ A.versions))
      ∧ (v ∈ A.versions → v ∈ B.versions → ∀ x ∈ A.Except B, x.Version ≠ v) := by
  refine ⟨mem_versions_Except A B v, ?_⟩
  intro ha hb x hx hxv
  have : v ∈ (A.Except B).versions := by
    simp only [Migrations.versions, List.mem_map]
    exact ⟨x, hx, hxv⟩
  rw [mem_versions_Except] at this
  rcases this with ⟨_, h2⟩ | ⟨_, h2⟩
  · exact h2 hb
  · exact h2 ha

/-- Witness of C3: version 2 is in both collections and in no element of the
result, whose versions are 1 and 3. -/
theorem C3_Except_versions_symmetric_difference_witness :
    (2 ∈ Migrations.versions [mkVersion 1, mkVersion 2]
        ∧ 2 ∈ Migrations.versions [mkVersion 2, mkVersion 3])
      ∧ (∀ x ∈ Migrations.Except [mkVersion 1, mkVersion 2] [mkVersion 2, mkVersion 3],
          x.Version ≠ 2)
      ∧ (3 ∈ (Migrations.Except [mkVersion 1, mkVersion 2] [mkVersion 2, mkVersion 3]).versions
          ↔ (3 ∈ Migrations.versions [mkVersion 1, mkVersion 2]
              ∧ 3 ∉ Migrations.versions [mkVersion 2, mkVersion 3])
            ∨ (3 ∈ Migrations.versions [mkVersion 2, mkVersion 3]
              ∧ 3 ∉ Migrations.versions [mkVersion 1, mkVersion 2])) :=
  ⟨⟨by decide, by decide⟩,
    (C3_Except_versions_symmetric_difference [mkVersion 1, mkVersion 2]
      [mkVersion 2, mkVersion 3] 2).2 (by decide) (by decide),
    (C3_Except_versions_symmetric_difference [mkVersion 1, mkVersion 2]
      [mkVersion 2, mkVersion 3] 3).1⟩

/-- C4: when both Collect calls succeed, with A from the source and B from the
store, `UnappliedMigrations` returns a collection and no error, and that
collection is empty if and only if A and B have the same set of Versions. -/
theorem C4_Unapplied_empty_iff {σ : Type} (sortSort : Migrations → Migrations)
    (hsort : SortContract sortSort)
    (source : Source σ) (store : Store σ) (w w1 w2 : σ) (A B : Migrations)
    (hs : source.Collect w = (Except.ok A, w1)) (ht : store.Collect w1 = (Except.ok B, w2)) :
    ∃ r : Migrations,
      (UnappliedMigrations sortSort source store (Run.start w)).1 = Except.ok r
        ∧ (r = [] ↔ ∀ v : Int, v ∈ A.versions ↔ v ∈ B.versions) := by
  refine ⟨(A.Except B).Sort sortSort, ?_, ?_⟩
  · rw [UnappliedMigrations_ok sortSort source store w w1 w2 A B hs ht]
  · rw [← Except_eq_nil_iff]
    have hp := SortContract_perm hsort (A.Except B)
    constructor
    · intro h
      rw [h] at hp
      exact List.Perm.eq_nil hp.symm
    · intro h
      rw [h] at hp ⊢
      exact List.Perm.eq_nil hp

/-- Witness of C4: the case of `TestUnapplied_Empty`, the one declared version
is the one applied, and the two records differ in their path. -/
theorem C4_Unapplied_empty_iff_witness :
    SortContract sortInsertion
      ∧ (fixedSource [mkNamed 20170329154959 "20170329154959_users"]).Collect 0
          = (Except.ok [mkNamed 20170329154959 "20170329154959_users"], 1)
      ∧ (fixedStore [mkVersion 20170329154959]).Collect 1
          = (Except.ok [mkVersion 20170329154959], 2)
      ∧ ∃ r : Migrations,
          (UnappliedMigrations sortInsertion
              (fixedSource [mkNamed 20170329154959 "20170329154959_users"])
              (fixedStore [mkVersion 20170329154959]) (Run.start 0)).1 = Except.ok r
            ∧ (r = [] ↔ ∀ v : Int,
                v ∈ Migrations.versions [mkNamed 20170329154959 "20170329154959_users"]
                  ↔ v ∈ Migrations.versions [mkVersion 20170329154959]) :=
  ⟨sortInsertion_contract, rfl, rfl,
    C4_Unapplied_empty_iff sortInsertion sortInsertion_contract
      (fixedSource [mkNamed 20170329154959 "20170329154959_users"])
      (fixedStore [mkVersion 20170329154959]) 0 1 2 _ _ rfl rfl⟩

/-- C5: when both Collect calls succeed, with A from the source and B from the
store, the collection returned by `UnappliedMigrations` is a permutation of
`A.Except(B)` and ascending by Version (each element is at most every later
one, so in particular at most the next one); and with nothing applied and
something declared its first element is a declared migration whose Version is
the smallest declared one. -/
theorem C5_Unapplied_sorted_perm {σ : Type} (sortSort : Migrations → Migrations)
    (hsort : SortContract sortSort)
    (source : Source σ) (store : Store σ) (w w1 w2 : σ) (A B : Migrations)
    (hs : source.Collect w = (Except.ok A, w1)) (ht : store.Collect w1 = (Except.ok B, w2)) :
    ∃ r : Migrations,
      (UnappliedMigrations sortSort source store (Run.start w)).1 = Except.ok r
        ∧ r.Perm (A.Except B)
        ∧ r.Ascending
        ∧ r.Chain' (fun a b => a.Version ≤ b.Version)
        ∧ (B = [] → A ≠ [] →
            ∃ x : Migration, r.head? = some x ∧ x ∈ A ∧ ∀ y ∈ A, x.Version ≤ y.Version) := by
  have hp := SortContract_perm hsort (A.Except B)
  have ha := SortContract_ascending hsort (A.Except B)
  refine ⟨(A.Except B).Sort sortSort, ?_, hp, ha, List.Pairwise.chain' ha, ?_⟩
  · rw [UnappliedMigrations_ok sortSort source store w w1 w2 A B hs ht]
  · intro hB hA
    subst hB
    have hE : A.Except [] = A := by simpa using Except_disjoint A [] (by simp)
    rw [hE] at hp ha ⊢
    cases hr : Migrations.Sort sortSort A with
    | nil =>
      rw [hr] at hp
      exact absurd (List.Perm.eq_nil hp.symm) hA
    | cons x t =>
      rw [hr] at hp ha
      refine ⟨x, rfl, hp.subset (by simp), ?_⟩
      intro y hy
      exact Ascending_head_le (x :: t) ha x rfl y (hp.symm.subset hy)

/-- Witness of C5: versions 30, 10, 20 declared, nothing applied; the first
element returned is a declared migration of least Version. -/
theorem C5_Unapplied_sorted_perm_witness :
    SortContract sortInsertion
      ∧ (fixedSource [mkVersion 30, mkVersion 10, mkVersion 20]).Collect 0
          = (Except.ok [mkVersion 30, mkVersion 10, mkVersion 20], 1)
      ∧ (fixedStore []).Collect 1 = (Except.ok [], 2)
      ∧ ∃ r : Migrations,
          (UnappliedMigrations sortInsertion
              (fixedSource [mkVersion 30, mkVersion 10, mkVersion 20])
              (fixedStore []) (Run.start 0)).1 = Except.ok r
            ∧ r.Perm (Migrations.Except [mkVersion 30, mkVersion 10, mkVersion 20] [])
            ∧ r.Ascending
            ∧ r.Chain' (fun a b => a.Version ≤ b.Version)
            ∧ ∃ x : Migration, r.head? = some x
                ∧ x ∈ [mkVersion 30, mkVersion 10, mkVersion 20]
                ∧ ∀ y ∈ [mkVersion 30, mkVersion 10, mkVersion 20], x.Version ≤ y.Version :=
  ⟨sortInsertion_contract, rfl, rfl,
    match C5_Unapplied_sorted_perm sortInsertion sortInsertion_contract
      (fixedSource [mkVersion 30, mkVersion 10, mkVersion 20]) (fixedStore []) 0 1 2 _ _
      rfl rfl with
    | ⟨r, h1, h2, h3, h4, h5⟩ => ⟨r, h1, h2, h3, h4, h5 rfl (by decide)⟩⟩

/-- C6: when both Collect calls succeed, with A from the source and B from the
store, every migration of B whose Version is absent from A is in the result of
`UnappliedMigrations`; and when the declared Versions are 100 and the applied
ones are 100 and 200 the result is exactly the applied migration with
Version 200. -/
theorem C6_Unapplied_keeps_store_only {σ : Type} (sortSort : Migrations → Migrations)
    (hsort : SortContract sortSort)
    (source : Source σ) (store : Store σ) (w w1 w2 : σ) (A B : Migrations)
    (hs : source.Collect w = (Except.ok A, w1)) (ht : store.Collect w1 = (Except.ok B, w2)) :
    ∃ r : Migrations,
      (UnappliedMigrations sortSort source store (Run.start w)).1 = Except.ok r
        ∧ (∀ x ∈ B, (∀ y ∈ A, y.Version ≠ x.Version) → x ∈ r)
        ∧ (A.versions = [100] → (B.versions = [100, 200] ∨ B.versions = [200, 100]) →
            r.versions = [200] ∧ ∃ x ∈ B, r = [x]) := by
  have hp := SortContract_perm hsort (A.Except B)
  refine ⟨(A.Except B).Sort sortSort, ?_, ?_, ?_⟩
  · rw [UnappliedMigrations_ok sortSort source store w w1 w2 A B hs ht]
  · intro x hx hxA
    apply hp.symm.subset
    rw [Except_eq]
    simp only [List.mem_append, List.mem_filter, decide_eq_true_eq, Migrations.versions,
      List.mem_map, not_exists, not_and]
    exact Or.inr ⟨hx, fun y hy => hxA y hy⟩
  · intro hA hB
    have hE : A.Except B = B.filter (fun x => decide (x.Version = 200)) := by
      rw [Except_eq, hA]
      have h1 : A.filter (fun x => decide (x.Version ∉ B.versions)) = [] := by
        rw [List.filter_eq_nil_iff]
        intro a ha
        have : a.Version ∈ A.versions := List.mem_map_of_mem _ ha
        rw [hA] at this
        simp at this
        rcases hB with hB | hB <;> simp [this, hB]
      rw [h1, List.nil_append]
      apply List.filter_congr
      intro b hb
      have : b.Version ∈ B.versions := List.mem_map_of_mem _ hb
      rcases hB with hB | hB
      · rw [hB] at this
        simp at this
        rcases this with h | h <;> simp [h]
      · rw [hB] at this
        simp at this
        rcases this with h | h <;> simp [h]
    rw [hE] at hp ⊢
    rcases B with _ | ⟨b1, _ | ⟨b2, _ | ⟨b3, t⟩⟩⟩
    · simp [Migrations.versions] at hB
    · simp [Migrations.versions] at hB
    · simp [Migrations.versions] at hB
      rcases hB with hB | hB
      · have hF : List.filter (fun x => decide (x.Version = 200)) [b1, b2] = [b2] := by
          simp [List.filter, hB.1, hB.2]
        rw [hF] at hp ⊢
        have hr : Migrations.Sort sortSort [b2] = [b2] := List.perm_singleton.1 hp
        rw [hr]
        exact ⟨by simp [Migrations.versions, hB.2], b2, by simp, rfl⟩
      · have hF : List.filter (fun x => decide (x.Version = 200)) [b1, b2] = [b1] := by
          simp [List.filter, hB.1, hB.2]
        rw [hF] at hp ⊢
        have hr : Migrations.Sort sortSort [b1] = [b1] := List.perm_singleton.1 hp
        rw [hr]
        exact ⟨by simp [Migrations.versions, hB.1], b1, by simp, rfl⟩
    · simp [Migrations.versions] at hB

/-- Witness of C6: the scenario declared 100, applied 100 and 200. -/
theorem C6_Unapplied_keeps_store_only_witness :
    SortContract sortInsertion
      ∧ (fixedSource [mkNamed 100 "100_a"]).Collect 0 = (Except.ok [mkNamed 100 "100_a"], 1)
      ∧ (fixedStore [mkVersion 100, mkVersion 200]).Collect 1
          = (Except.ok [mkVersion 100, mkVersion 200], 2)
      ∧ mkVersion 200 ∈ [mkVersion 100, mkVersion 200]
      ∧ (∀ y ∈ [mkNamed 100 "100_a"], y.Version ≠ (mkVersion 200).Version)
      ∧ ∃ r : Migrations,
          (UnappliedMigrations sortInsertion (fixedSource [mkNamed 100 "100_a"])
              (fixedStore [mkVersion 100, mkVersion 200]) (Run.start 0)).1 = Except.ok r
            ∧ mkVersion 200 ∈ r
            ∧ r.versions = [200]
            ∧ ∃ x ∈ [mkVersion 100, mkVersion 200], r = [x] :=
  ⟨sortInsertion_contract, rfl, rfl, by decide, by decide,
    match C6_Unapplied_keeps_store_only sortInsertion sortInsertion_contract
      (fixedSource [mkNamed 100 "100_a"]) (fixedStore [mkVersion 100, mkVersion 200])
      0 1 2 _ _ rfl rfl with
    | ⟨r, h1, h2, h3⟩ =>
      ⟨r, h1, h2 (mkVersion 200) (by decide) (by decide),
        (h3 (by decide) (Or.inl (by decide))).1, (h3 (by decide) (Or.inl (by decide))).2⟩⟩

/-! ## Sort and Current -/

/-- C7: `m.Current()` is nil when m is empty; otherwise it is an element of m
whose Version is at least the Version of every element of m, in whatever order
m comes. -/
theorem C7_Current_is_maximum (sortSort : Migrations → Migrations)
    (hsort : SortContract sortSort) (m : Migrations) :
    (m = [] → m.Current sortSort = none)
      ∧ (m ≠ [] →
          ∃ x : Migration, m.Current sortSort = some x ∧ x ∈ m
            ∧ ∀ y ∈ m, y.Version ≤ x.Version) := by
  have hp := SortContract_perm hsort m
  have ha := SortContract_ascending hsort m
  have hlen : (m.Sort sortSort).length = m.length := hp.length_eq
  constructor
  · intro hm
    subst hm
    have : (Migrations.Sort sortSort []).length = 0 := by simpa using hlen
    simp [Migrations.Current, Migrations.Len, this]
  · intro hm
    have hpos : 0 < m.length := List.length_pos.2 hm
    have hlast : (m.Sort sortSort).length - 1 < (m.Sort sortSort).length := by omega
    refine ⟨(m.Sort sortSort)[(m.Sort sortSort).length - 1], ?_, ?_, ?_⟩
    · have hne : ¬ (m.Sort sortSort).length = 0 := by omega
      simp only [Migrations.Current, Migrations.Len, hne, if_false]
      exact List.getElem?_eq_getElem hlast
    · exact hp.subset (List.getElem_mem _)
    · intro y hy
      exact Ascending_getLast_ge _ ha _ (List.getElem?_eq_getElem hlast) y (hp.symm.subset hy)

/-- Witness of C7: three versions out of order; Current is an element of
greatest Version. -/
theorem C7_Current_is_maximum_witness :
    SortContract sortInsertion
      ∧ ([mkVersion 20, mkVersion 30, mkVersion 10] : Migrations) ≠ []
      ∧ ∃ x : Migration,
          Migrations.Current sortInsertion [mkVersion 20, mkVersion 30, mkVersion 10] = some x
            ∧ x ∈ [mkVersion 20, mkVersion 30, mkVersion 10]
            ∧ ∀ y ∈ [mkVersion 20, mkVersion 30, mkVersion 10], y.Version ≤ x.Version :=
  ⟨sortInsertion_contract, by decide,
    (C7_Current_is_maximum sortInsertion sortInsertion_contract
      [mkVersion 20, mkVersion 30, mkVersion 10]).2 (by decide)⟩

/-- C8, as amended: after `Sort` the collection is a permutation of its previous
content and ascending by Version, and for each Version the migrations that
carry it are the same ones as before (in some order). -/
theorem C8_Sort_ascending_perm (sortSort : Migrations → Migrations)
    (hsort : SortContract sortSort) (m : Migrations) :
    (m.Sort sortSort).Perm m
      ∧ (m.Sort sortSort).Ascending
      ∧ ∀ v : Int,
          ((m.Sort sortSort).filter (fun x => decide (x.Version = v))).Perm
            (m.filter (fun x => decide (x.Version = v))) :=
  ⟨SortContract_perm hsort m, SortContract_ascending hsort m,
    fun _ => (SortContract_perm hsort m).filter _⟩

/-- Witness of C8 as amended: the seven migrations under `insertionSort`. -/
theorem C8_Sort_ascending_perm_witness :
    SortContract sortInsertion
      ∧ ((Migrations.Sort sortInsertion sevenMigrations).Perm sevenMigrations
          ∧ (Migrations.Sort sortInsertion sevenMigrations).Ascending
          ∧ ∀ v : Int,
              ((Migrations.Sort sortInsertion sevenMigrations).filter
                  (fun x => decide (x.Version = v))).Perm
                (sevenMigrations.filter (fun x => decide (x.Version = v)))) :=
  ⟨sortInsertion_contract,
    C8_Sort_ascending_perm sortInsertion sortInsertion_contract sevenMigrations⟩

/-- C8 as stated fails: the sorting routine of the Go releases 1.6 to 1.18 meets
the contract of `sort.Sort`, and on seven migrations whose first two share
version 2 it puts the second of them before the first. So it is not the case
that `Sort` keeps migrations of equal Version in their relative order. -/
theorem C8_Sort_not_stable :
    Migrations.Sort sortShellInsertion sevenMigrations
        = [mkVersion 1, mkNamed 2 "b", mkNamed 2 "a", mkVersion 3, mkVersion 4,
            mkVersion 5, mkVersion 6]
      ∧ ¬ (∀ sortSort : Migrations → Migrations, SortContract sortSort →
            ∀ m : Migrations,
              (m.Sort sortSort).Perm m ∧ (m.Sort sortSort).Ascending
                ∧ Migrations.SameOrderOfEquals m (m.Sort sortSort)) := by
  have hrun : Migrations.Sort sortShellInsertion sevenMigrations
      = [mkVersion 1, mkNamed 2 "b", mkNamed 2 "a", mkVersion 3, mkVersion 4,
          mkVersion 5, mkVersion 6] := by decide
  refine ⟨hrun, ?_⟩
  intro h
  have h2 := (h sortShellInsertion sortShellInsertion_contract sevenMigrations).2.2 2
  rw [hrun] at h2
  revert h2
  decide

/-! ## The executor -/

/-- C9: for every migration whose DownSQL is empty, `SQLExecutor.Down` returns
`IrreversibleError` with the Version of that migration, and makes no call on
the database handle, its transactions or the store: the record of calls and
the state of the world are what they were. -/
theorem C9_Down_irreversible {σ : Type} (e : SQLExecutor σ) (sqlTx : SQLTx σ)
    (migration : Migration) (store : Store σ) (s : Run σ)
    (h : migration.DownSQL.length = 0) :
    (e.Down sqlTx migration store s).1 = some (Error.IrreversibleError migration.Version)
      ∧ (e.Down sqlTx migration store s).2.calls = s.calls
      ∧ (e.Down sqlTx migration store s).2.world = s.world := by
  simp [SQLExecutor.Down, Migration.Reversible, h]

/-- Witness of C9: the migration of the scenario, whose down content is empty. -/
theorem C9_Down_irreversible_witness :
    createTable.DownSQL.length = 0
      ∧ (({ db := goodDB } : SQLExecutor Counter).Down goodTx createTable (fixedStore [])
            (Run.start 0)).1 = some (Error.IrreversibleError createTable.Version)
      ∧ (({ db := goodDB } : SQLExecutor Counter).Down goodTx createTable (fixedStore [])
            (Run.start 0)).2.calls = []
      ∧ (({ db := goodDB } : SQLExecutor Counter).Down goodTx createTable (fixedStore [])
            (Run.start 0)).2.world = 0 :=
  ⟨rfl, C9_Down_irreversible { db := goodDB } goodTx createTable (fixedStore [])
    (Run.start 0) rfl⟩

/-- C10: when Begin, the execution of UpSQL, the Insert of the store and Commit
all succeed, `SQLExecutor.Up` makes exactly the calls Begin, Exec(UpSQL) on the
transaction that Begin returned, Insert(migration, that transaction), Commit on
that transaction, in this order, makes no Rollback, and returns no error. -/
theorem C10_Up_success {σ : Type} (e : SQLExecutor σ) (sqlTx : SQLTx σ)
    (migration : Migration) (store : Store σ) (w w1 w2 w3 w4 : σ) (tx : Tx)
    (hb : e.db.Begin w = (Except.ok tx, w1))
    (he : sqlTx.Exec tx migration.UpSQL w1 = (none, w2))
    (hi : store.Insert migration tx w2 = (none, w3))
    (hc : sqlTx.Commit tx w3 = (none, w4)) :
    (e.Up sqlTx migration store (Run.start w)).1 = none
      ∧ (e.Up sqlTx migration store (Run.start w)).2.calls
          = [Call.Begin, Call.Exec tx migration.UpSQL, Call.Insert migration tx, Call.Commit tx]
      ∧ (∀ t : Tx, Call.Rollback t ∉ (e.Up sqlTx migration store (Run.start w)).2.calls)
      ∧ (e.Up sqlTx migration store (Run.start w)).2.world = w4 := by
  simp [SQLExecutor.Up, SQLExecer.callBegin, SQLTx.callExec, Store.callInsert,
    SQLTx.callCommit, Run.start, hb, he, hi, hc]

/-- Witness of C10: the scenario of the spec, migration 100 with up content
"CREATE TABLE t", on collaborators that all succeed. -/
theorem C10_Up_success_witness :
    goodDB.Begin 0 = (Except.ok { id := 7 }, 1)
      ∧ goodTx.Exec { id := 7 } createTable.UpSQL 1 = (none, 2)
      ∧ (fixedStore []).Insert createTable { id := 7 } 2 = (none, 3)
      ∧ goodTx.Commit { id := 7 } 3 = (none, 4)
      ∧ (({ db := goodDB } : SQLExecutor Counter).Up goodTx createTable (fixedStore [])
            (Run.start 0)).1 = none
      ∧ (({ db := goodDB } : SQLExecutor Counter).Up goodTx createTable (fixedStore [])
            (Run.start 0)).2.calls
          = [Call.Begin, Call.Exec { id := 7 } createTable.UpSQL,
              Call.Insert createTable { id := 7 }, Call.Commit { id := 7 }]
      ∧ (∀ t : Tx, Call.Rollback t ∉
            (({ db := goodDB } : SQLExecutor Counter).Up goodTx createTable (fixedStore [])
              (Run.start 0)).2.calls)
      ∧ (({ db := goodDB } : SQLExecutor Counter).Up goodTx createTable (fixedStore [])
            (Run.start 0)).2.world = 4 :=
  ⟨rfl, rfl, rfl, rfl,
    C10_Up_success { db := goodDB } goodTx createTable (fixedStore []) 0 1 2 3 4 { id := 7 }
      rfl rfl rfl rfl⟩

/-- C11: when Begin and the execution of UpSQL succeed and the Insert of the
store fails with error e, `SQLExecutor.Up` returns e, its last call is Rollback
on the transaction, and it never calls Commit. -/
theorem C11_Up_insert_fails {σ : Type} (e : SQLExecutor σ) (sqlTx : SQLTx σ)
    (migration : Migration) (store : Store σ) (w w1 w2 w3 : σ) (tx : Tx) (err : Error)
    (hb : e.db.Begin w = (Except.ok tx, w1))
    (he : sqlTx.Exec tx migration.UpSQL w1 = (none, w2))
    (hi : store.Insert migration tx w2 = (some err, w3)) :
    (e.Up sqlTx migration store (Run.start w)).1 = some err
      ∧ (e.Up sqlTx migration store (Run.start w)).2.calls
          = [Call.Begin, Call.Exec tx migration.UpSQL, Call.Insert migration tx,
              Call.Rollback tx]
      ∧ (∀ t : Tx, Call.Commit t ∉ (e.Up sqlTx migration store (Run.start w)).2.calls)
      ∧ (e.Up sqlTx migration store (Run.start w)).2.world = (sqlTx.Rollback tx w3).2 := by
  simp [SQLExecutor.Up, SQLExecer.callBegin, SQLTx.callExec, Store.callInsert,
    SQLTx.callRollback, Run.start, hb, he, hi]

/-- Witness of C11: a store whose Insert fails. -/
theorem C11_Up_insert_fails_witness :
    goodDB.Begin 0 = (Except.ok { id := 7 }, 1)
      ∧ goodTx.Exec { id := 7 } createTable.UpSQL 1 = (none, 2)
      ∧ storeInsertFails.Insert createTable { id := 7 } 2 = (some lostConnection, 3)
      ∧ (({ db := goodDB } : SQLExecutor Counter).Up goodTx createTable storeInsertFails
            (Run.start 0)).1 = some lostConnection
      ∧ (({ db := goodDB } : SQLExecutor Counter).Up goodTx createTable storeInsertFails
            (Run.start 0)).2.calls
          = [Call.Begin, Call.Exec { id := 7 } createTable.UpSQL,
              Call.Insert createTable { id := 7 }, Call.Rollback { id := 7 }]
      ∧ (∀ t : Tx, Call.Commit t ∉
            (({ db := goodDB } : SQLExecutor Counter).Up goodTx createTable storeInsertFails
              (Run.start 0)).2.calls)
      ∧ (({ db := goodDB } : SQLExecutor Counter).Up goodTx createTable storeInsertFails
            (Run.start 0)).2.world = 4 :=
  ⟨rfl, rfl, rfl,
    C11_Up_insert_fails { db := goodDB } goodTx createTable storeInsertFails 0 1 2 3
      { id := 7 } lostConnection rfl rfl rfl⟩

/-- C12: when Begin succeeds and executing UpSQL fails with error e,
`SQLExecutor.Up` returns exactly e, its last call is Rollback on the
transaction, and it calls neither the Insert of the store nor Commit. -/
theorem C12_Up_exec_fails {σ : Type} (e : SQLExecutor σ) (sqlTx : SQLTx σ)
    (migration : Migration) (store : Store σ) (w w1 w2 : σ) (tx : Tx) (err : Error)
    (hb : e.db.Begin w = (Except.ok tx, w1))
    (he : sqlTx.Exec tx migration.UpSQL w1 = (some err, w2)) :
    (e.Up sqlTx migration store (Run.start w)).1 = some err
      ∧ (e.Up sqlTx migration store (Run.start w)).2.calls
          = [Call.Begin, Call.Exec tx migration.UpSQL, Call.Rollback tx]
      ∧ (∀ (m : Migration) (t : Tx),
          Call.Insert m t ∉ (e.Up sqlTx migration store (Run.start w)).2.calls)
      ∧ (∀ t : Tx, Call.Commit t ∉ (e.Up sqlTx migration store (Run.start w)).2.calls)
      ∧ (e.Up sqlTx migration store (Run.start w)).2.world = (sqlTx.Rollback tx w2).2 := by
  simp [SQLExecutor.Up, SQLExecer.callBegin, SQLTx.callExec, SQLTx.callRollback,
    Run.start, hb, he]

/-- Witness of C12: transactions on which Exec fails. -/
theorem C12_Up_exec_fails_witness :
    goodDB.Begin 0 = (Except.ok { id := 7 }, 1)
      ∧ execFailsTx.Exec { id := 7 } createTable.UpSQL 1 = (some lostConnection, 2)
      ∧ (({ db := goodDB } : SQLExecutor Counter).Up execFailsTx createTable (fixedStore [])
            (Run.start 0)).1 = some lostConnection
      ∧ (({ db := goodDB } : SQLExecutor Counter).Up execFailsTx createTable (fixedStore [])
            (Run.start 0)).2.calls
          = [Call.Begin, Call.Exec { id := 7 } createTable.UpSQL, Call.Rollback { id := 7 }]
      ∧ (∀ (m : Migration) (t : Tx), Call.Insert m t ∉
            (({ db := goodDB } : SQLExecutor Counter).Up execFailsTx createTable (fixedStore [])
              (Run.start 0)).2.calls)
      ∧ (∀ t : Tx, Call.Commit t ∉
            (({ db := goodDB } : SQLExecutor Counter).Up execFailsTx createTable (fixedStore [])
              (Run.start 0)).2.calls)
      ∧ (({ db := goodDB } : SQLExecutor Counter).Up execFailsTx createTable (fixedStore [])
            (Run.start 0)).2.world = 3 :=
  ⟨rfl, rfl,
    C12_Up_exec_fails { db := goodDB } execFailsTx createTable (fixedStore []) 0 1 2
      { id := 7 } lostConnection rfl rfl⟩

/-- C13, what the code does: on a reversible migration, with Begin and the
execution of DownSQL succeeding and the Remove of the store failing,
`SQLExecutor.Down` returns the error of Remove after the calls Begin, Exec,
Remove and nothing else: no Rollback is made (and no Commit), while
`SQLExecutor.Up` on the store whose Insert fails does end with Rollback. -/
theorem C13_Down_remove_fails_no_rollback :
    dropTable.Reversible = true
      ∧ (({ db := goodDB } : SQLExecutor Counter).Down goodTx dropTable storeRemoveFails
            (Run.start 0)).1 = some lostConnection
      ∧ (({ db := goodDB } : SQLExecutor Counter).Down goodTx dropTable storeRemoveFails
            (Run.start 0)).2.calls
          = [Call.Begin, Call.Exec { id := 7 } dropTable.DownSQL,
              Call.Remove dropTable { id := 7 }]
      ∧ Call.Rollback { id := 7 } ∉
          (({ db := goodDB } : SQLExecutor Counter).Down goodTx dropTable storeRemoveFails
            (Run.start 0)).2.calls
      ∧ Call.Rollback { id := 7 } ∈
          (({ db := goodDB } : SQLExecutor Counter).Up goodTx dropTable storeInsertFails
            (Run.start 0)).2.calls := by
  refine ⟨by decide, rfl, rfl, by decide, by decide⟩

theorem Down_remove_fails_calls {σ : Type} (e : SQLExecutor σ) (sqlTx : SQLTx σ)
    (migration : Migration) (store : Store σ) (w w1 w2 w3 : σ) (tx : Tx) (err : Error)
    (hr : migration.Reversible = true)
    (hb : e.db.Begin w = (Except.ok tx, w1))
    (he : sqlTx.Exec tx migration.DownSQL w1 = (none, w2))
    (hq : store.Remove migration tx w2 = (some err, w3)) :
    e.Down sqlTx migration store (Run.start w)
      = (some err,
          { world := w3
            calls := [Call.Begin, Call.Exec tx migration.DownSQL, Call.Remove migration tx] }) := by
  simp [SQLExecutor.Down, SQLExecer.callBegin, SQLTx.callExec, Store.callRemove,
    Run.start, hr, hb, he, hq]

/-- C14: whatever the collaborators answer, `SQLExecutor.Up` returns no error
if and only if Begin, the execution of UpSQL, the Insert of the store and
Commit all succeeded; and when Commit fails with error e after the earlier
steps succeeded, Up returns e. -/
theorem C14_Up_nil_iff_all_succeed {σ : Type} (e : SQLExecutor σ) (sqlTx : SQLTx σ)
    (migration : Migration) (store : Store σ) (w : σ) :
    ((e.Up sqlTx migration store (Run.start w)).1 = none
        ↔ ∃ (tx : Tx) (w1 w2 w3 w4 : σ),
            e.db.Begin w = (Except.ok tx, w1)
              ∧ sqlTx.Exec tx migration.UpSQL w1 = (none, w2)
              ∧ store.Insert migration tx w2 = (none, w3)
              ∧ sqlTx.Commit tx w3 = (none, w4))
      ∧ (∀ (tx : Tx) (w1 w2 w3 w4 : σ) (err : Error),
          e.db.Begin w = (Except.ok tx, w1) →
          sqlTx.Exec tx migration.UpSQL w1 = (none, w2) →
          store.Insert migration tx w2 = (none, w3) →
          sqlTx.Commit tx w3 = (some err, w4) →
          (e.Up sqlTx migration store (Run.start w)).1 = some err) := by
  constructor
  · rcases hb : e.db.Begin w with ⟨rb, w1⟩
    cases rb with
    | error err =>
      simp [SQLExecutor.Up, SQLExecer.callBegin, Run.start, hb]
    | ok tx =>
      rcases he : sqlTx.Exec tx migration.UpSQL w1 with ⟨re, w2⟩
      cases re with
      | some err =>
        simp [SQLExecutor.Up, SQLExecer.callBegin, SQLTx.callExec, Run.start, hb, he]
      | none =>
        rcases hi : store.Insert migration tx w2 with ⟨ri, w3⟩
        cases ri with
        | some err =>
          simp [SQLExecutor.Up, SQLExecer.callBegin, SQLTx.callExec, Store.callInsert,
            Run.start, hb, he, hi]
        | none =>
          rcases hc : sqlTx.Commit tx w3 with ⟨rc, w4⟩
          cases rc with
          | some err =>
            simp [SQLExecutor.Up, SQLExecer.callBegin, SQLTx.callExec, Store.callInsert,
              SQLTx.callCommit, Run.start, hb, he, hi, hc]
          | none =>
            simp [SQLExecutor.Up, SQLExecer.callBegin, SQLTx.callExec, Store.callInsert,
              SQLTx.callCommit, Run.start, hb, he, hi, hc]
            exact ⟨tx, w1, ⟨rfl, rfl⟩, w2, he, w3, hi, w4, hc⟩
  · intro tx w1 w2 w3 w4 err hb he hi hc
    simp [SQLExecutor.Up, SQLExecer.callBegin, SQLTx.callExec, Store.callInsert,
      SQLTx.callCommit, Run.start, hb, he, hi, hc]

/-- Witness of C14: transactions on which Commit fails; Up returns that error,
and returns no error on the transactions on which everything succeeds. -/
theorem C14_Up_nil_iff_all_succeed_witness :
    goodDB.Begin 0 = (Except.ok { id := 7 }, 1)
      ∧ commitFailsTx.Exec { id := 7 } createTable.UpSQL 1 = (none, 2)
      ∧ (fixedStore []).Insert createTable { id := 7 } 2 = (none, 3)
      ∧ commitFailsTx.Commit { id := 7 } 3 = (some lostConnection, 4)
      ∧ (({ db := goodDB } : SQLExecutor Counter).Up commitFailsTx createTable (fixedStore [])
            (Run.start 0)).1 = some lostConnection
      ∧ (({ db := goodDB } : SQLExecutor Counter).Up goodTx createTable (fixedStore [])
            (Run.start 0)).1 = none :=
  ⟨rfl, rfl, rfl, rfl,
    (C14_Up_nil_iff_all_succeed { db := goodDB } commitFailsTx createTable (fixedStore []) 0).2
      { id := 7 } 1 2 3 4 lostConnection rfl rfl rfl rfl,
    (C14_Up_nil_iff_all_succeed { db := goodDB } goodTx createTable (fixedStore []) 0).1.2
      ⟨{ id := 7 }, 1, 2, 3, 4, rfl, rfl, rfl, rfl⟩⟩

/-- C15: when Begin fails with error e, `SQLExecutor.Up` returns exactly e and
Begin is its only call; and so does `SQLExecutor.Down` on a reversible
migration: no statement is executed, neither Insert nor Remove of the store is
called, and neither Commit nor Rollback. -/
theorem C15_Begin_fails {σ : Type} (e : SQLExecutor σ) (sqlTx : SQLTx σ)
    (migration : Migration) (store : Store σ) (w w1 : σ) (err : Error)
    (hb : e.db.Begin w = (Except.error err, w1)) :
    e.Up sqlTx migration store (Run.start w)
        = (some err, { world := w1, calls := [Call.Begin] })
      ∧ (migration.Reversible = true →
          e.Down sqlTx migration store (Run.start w)
            = (some err, { world := w1, calls := [Call.Begin] })) := by
  constructor
  · simp [SQLExecutor.Up, SQLExecer.callBegin, Run.start, hb]
  · intro hr
    simp [SQLExecutor.Down, SQLExecer.callBegin, Run.start, hb, hr]

/-- Witness of C15: a database handle whose Begin fails, under a reversible
migration. -/
theorem C15_Begin_fails_witness :
    badDB.Begin 0 = (Except.error lostConnection, 1)
      ∧ dropTable.Reversible = true
      ∧ ({ db := badDB } : SQLExecutor Counter).Up goodTx dropTable (fixedStore []) (Run.start 0)
          = (some lostConnection, { world := 1, calls := [Call.Begin] })
      ∧ ({ db := badDB } : SQLExecutor Counter).Down goodTx dropTable (fixedStore [])
            (Run.start 0)
          = (some lostConnection, { world := 1, calls := [Call.Begin] }) :=
  ⟨rfl, by decide,
    (C15_Begin_fails { db := badDB } goodTx dropTable (fixedStore []) 0 1 lostConnection rfl).1,
    (C15_Begin_fails { db := badDB } goodTx dropTable (fixedStore []) 0 1 lostConnection rfl).2
      (by decide)⟩

/-- C16: on a reversible migration, when Begin, the execution of DownSQL, the
Remove of the store and Commit all succeed, `SQLExecutor.Down` makes exactly
the calls Begin, Exec(DownSQL) on the transaction that Begin returned,
Remove(migration, that transaction), Commit, in this order, and returns no
error; and when executing DownSQL fails with error e it returns e after the
calls Begin, Exec, Rollback, and never calls Remove. -/
theorem C16_Down_success_and_exec_failure {σ : Type} (e : SQLExecutor σ) (sqlTx : SQLTx σ)
    (migration : Migration) (store : Store σ) (w w1 : σ) (tx : Tx)
    (hr : migration.Reversible = true)
    (hb : e.db.Begin w = (Except.ok tx, w1)) :
    (∀ w2 w3 w4 : σ,
        sqlTx.Exec tx migration.DownSQL w1 = (none, w2) →
        store.Remove migration tx w2 = (none, w3) →
        sqlTx.Commit tx w3 = (none, w4) →
        e.Down sqlTx migration store (Run.start w)
          = (none,
              { world := w4
                calls := [Call.Begin, Call.Exec tx migration.DownSQL,
                  Call.Remove migration tx, Call.Commit tx] }))
      ∧ (∀ (w2 : σ) (err : Error),
          sqlTx.Exec tx migration.DownSQL w1 = (some err, w2) →
          (e.Down sqlTx migration store (Run.start w)).1 = some err
            ∧ (e.Down sqlTx migration store (Run.start w)).2.calls
                = [Call.Begin, Call.Exec tx migration.DownSQL, Call.Rollback tx]
            ∧ (∀ (m : Migration) (t : Tx),
                Call.Remove m t ∉ (e.Down sqlTx migration store (Run.start w)).2.calls)) := by
  constructor
  · intro w2 w3 w4 he hq hc
    simp [SQLExecutor.Down, SQLExecer.callBegin, SQLTx.callExec, Store.callRemove,
      SQLTx.callCommit, Run.start, hr, hb, he, hq, hc]
  · intro w2 err he
    simp [SQLExecutor.Down, SQLExecer.callBegin, SQLTx.callExec, SQLTx.callRollback,
      Run.start, hr, hb, he]

/-- Witness of C16: the reversible migration on collaborators that all succeed,
and on transactions on which Exec fails. -/
theorem C16_Down_success_and_exec_failure_witness :
    dropTable.Reversible = true
      ∧ goodDB.Begin 0 = (Except.ok { id := 7 }, 1)
      ∧ ({ db := goodDB } : SQLExecutor Counter).Down goodTx dropTable (fixedStore [])
            (Run.start 0)
          = (none,
              { world := 4
                calls := [Call.Begin, Call.Exec { id := 7 } dropTable.DownSQL,
                  Call.Remove dropTable { id := 7 }, Call.Commit { id := 7 }] })
      ∧ (({ db := goodDB } : SQLExecutor Counter).Down execFailsTx dropTable (fixedStore [])
            (Run.start 0)).1 = some lostConnection
      ∧ (({ db := goodDB } : SQLExecutor Counter).Down execFailsTx dropTable (fixedStore [])
            (Run.start 0)).2.calls
          = [Call.Begin, Call.Exec { id := 7 } dropTable.DownSQL, Call.Rollback { id := 7 }] :=
  ⟨by decide, rfl,
    (C16_Down_success_and_exec_failure { db := goodDB } goodTx dropTable (fixedStore []) 0 1
      { id := 7 } (by decide) rfl).1 2 3 4 rfl rfl rfl,
    ((C16_Down_success_and_exec_failure { db := goodDB } execFailsTx dropTable (fixedStore [])
      0 1 { id := 7 } (by decide) rfl).2 2 lostConnection rfl).1,
    ((C16_Down_success_and_exec_failure { db := goodDB } execFailsTx dropTable (fixedStore [])
      0 1 { id := 7 } (by decide) rfl).2 2 lostConnection rfl).2.1⟩

/-- C17: `UnappliedMigrations` hands collaborator errors on unchanged. If
`source.Collect()` fails with e it returns (nil, e) and `store.Collect()` is
not called; if `source.Collect()` succeeds and `store.Collect()` fails with e
it returns (nil, e); and when both succeed it returns no error. -/
theorem C17_Unapplied_errors {σ : Type} (sortSort : Migrations → Migrations)
    (source : Source σ) (store : Store σ) (w : σ) :
    (∀ (err : Error) (w1 : σ), source.Collect w = (Except.error err, w1) →
        UnappliedMigrations sortSort source store (Run.start w)
          = (Except.error err, { world := w1, calls := [Call.SourceCollect] }))
      ∧ (∀ (A : Migrations) (w1 : σ) (err : Error) (w2 : σ),
          source.Collect w = (Except.ok A, w1) →
          store.Collect w1 = (Except.error err, w2) →
          UnappliedMigrations sortSort source store (Run.start w)
            = (Except.error err,
                { world := w2, calls := [Call.SourceCollect, Call.StoreCollect] }))
      ∧ (∀ (A B : Migrations) (w1 w2 : σ),
          source.Collect w = (Except.ok A, w1) →
          store.Collect w1 = (Except.ok B, w2) →
          ∃ r : Migrations,
            (UnappliedMigrations sortSort source store (Run.start w)).1 = Except.ok r)
      ∧ (∀ err : Error,
          (UnappliedMigrations sortSort source store (Run.start w)).1 = Except.error err →
            (source.Collect w).1 = Except.error err
              ∨ ((∃ A : Migrations, (source.Collect w).1 = Except.ok A)
                  ∧ (store.Collect (source.Collect w).2).1 = Except.error err)) := by
  refine ⟨?_, ?_, ?_, ?_⟩
  · intro err w1 hs
    simp [UnappliedMigrations, Source.callCollect, Run.start, hs]
  · intro A w1 err w2 hs ht
    simp [UnappliedMigrations, Source.callCollect, Store.callCollect, Run.start, hs, ht]
  · intro A B w1 w2 hs ht
    exact ⟨_, by rw [UnappliedMigrations_ok sortSort source store w w1 w2 A B hs ht]⟩
  · intro err
    rcases hs : source.Collect w with ⟨rs, w1⟩
    cases rs with
    | error e1 =>
      simp [UnappliedMigrations, Source.callCollect, Run.start, hs]
    | ok A =>
      rcases ht : store.Collect w1 with ⟨rt, w2⟩
      cases rt with
      | error e2 =>
        simp [UnappliedMigrations, Source.callCollect, Store.callCollect, Run.start, hs, ht]
      | ok B =>
        simp [UnappliedMigrations, Source.callCollect, Store.callCollect, Run.start, hs, ht]

/-- Witness of C17: a failing source, and a good source with a failing store. -/
theorem C17_Unapplied_errors_witness :
    failingSource.Collect 0 = (Except.error lostConnection, 1)
      ∧ UnappliedMigrations sortInsertion failingSource (fixedStore []) (Run.start 0)
          = (Except.error lostConnection, { world := 1, calls := [Call.SourceCollect] })
      ∧ (fixedSource [mkVersion 100]).Collect 0 = (Except.ok [mkVersion 100], 1)
      ∧ storeCollectFails.Collect 1 = (Except.error lostConnection, 2)
      ∧ UnappliedMigrations sortInsertion (fixedSource [mkVersion 100]) storeCollectFails
            (Run.start 0)
          = (Except.error lostConnection,
              { world := 2, calls := [Call.SourceCollect, Call.StoreCollect] }) :=
  ⟨rfl,
    (C17_Unapplied_errors sortInsertion failingSource (fixedStore []) 0).1
      lostConnection 1 rfl,
    rfl, rfl,
    (C17_Unapplied_errors sortInsertion (fixedSource [mkVersion 100]) storeCollectFails 0).2.1
      [mkVersion 100] 1 lostConnection 2 rfl rfl⟩

/-! ## Decimal digits and `ParseInt` -/

theorem digitChar_facts (k : Nat) (hk : k < 10) :
    ('0' ≤ digitChar k ∧ digitChar k ≤ '9')
      ∧ (digitChar k).toNat - '0'.toNat = k
      ∧ digitChar k ≠ '_' ∧ digitChar k ≠ '/' ∧ digitChar k ≠ '+' ∧ digitChar k ≠ '-' := by
  interval_cases k <;> decide

theorem ParseUintLoop_digit (k : Nat) (hk : k < 10) (s : List Char) (n : Nat) :
    ParseUintLoop (digitChar k :: s) n
      = if n ≥ maxUint64 / 10 + 1 then (maxUint64, some ErrRange)
        else if n * 10 + k > maxUint64 then (maxUint64, some ErrRange)
        else ParseUintLoop s (n * 10 + k) := by
  have h := digitChar_facts k hk
  rw [ParseUintLoop, if_pos h.1, h.2.1]

theorem ParseUintLoop_append (l1 l2 : List Char) (n : Nat) :
    ParseUintLoop (l1 ++ l2) n
      = match ParseUintLoop l1 n with
        | (m, none) => ParseUintLoop l2 m
        | (m, some err) => (m, some err) := by
  induction l1 generalizing n with
  | nil => simp [ParseUintLoop]
  | cons d s ih =>
    simp only [List.cons_append, ParseUintLoop]
    split
    · split
      · rfl
      · split
        · rfl
        · exact ih _
    · rfl

theorem natDecimal_ne_nil (fuel n : Nat) : natDecimal (fuel + 1) n ≠ [] := by
  unfold natDecimal
  split <;> simp

theorem natDecimal_mem (fuel n : Nat) :
    ∀ c ∈ natDecimal fuel n, ∃ k : Nat, k < 10 ∧ c = digitChar k := by
  induction fuel generalizing n with
  | zero => intro c hc; simp [natDecimal] at hc
  | succ fuel ih =>
    intro c hc
    unfold natDecimal at hc
    split at hc
    · simp at hc
      exact ⟨n, by omega, hc⟩
    · simp at hc
      rcases hc with hc | hc
      · exact ih _ c hc
      · exact ⟨n % 10, Nat.mod_lt _ (by omega), hc⟩

theorem ParseUintLoop_natDecimal (fuel n : Nat) (hf : n < fuel) (hn : n ≤ maxUint64) :
    ParseUintLoop (natDecimal fuel n) 0 = (n, none) := by
  induction fuel generalizing n with
  | zero => omega
  | succ fuel ih =>
    unfold natDecimal
    split
    · rw [ParseUintLoop_digit n (by omega)]
      have : ¬ (0 ≥ maxUint64 / 10 + 1) := by decide
      rw [if_neg this]
      have h2 : ¬ (0 * 10 + n > maxUint64) := by omega
      rw [if_neg h2]
      simp [ParseUintLoop]
    · rw [ParseUintLoop_append, ih (n / 10) (by omega) (by omega)]
      simp only
      rw [ParseUintLoop_digit (n % 10) (Nat.mod_lt _ (by omega))]
      have hmax : maxUint64 = 18446744073709551615 := by decide
      have h1 : ¬ (n / 10 ≥ maxUint64 / 10 + 1) := by rw [hmax] at hn ⊢; omega
      have h2 : ¬ (n / 10 * 10 + n % 10 > maxUint64) := by omega
      rw [if_neg h1, if_neg h2]
      have h3 : n / 10 * 10 + n % 10 = n := by omega
      rw [h3]
      simp [ParseUintLoop]

theorem toInt64_of_range (x : Int) (h1 : -(2 ^ 63) ≤ x) (h2 : x < 2 ^ 63) : toInt64 x = x := by
  unfold toInt64
  norm_num at h1 h2 ⊢
  omega

theorem toInt64_neg_magnitude (a : Nat) (ha : a ≤ 2 ^ 63) :
    toInt64 (-(toInt64 (a : Int))) = -(a : Int) := by
  unfold toInt64
  norm_num at ha ⊢
  omega

theorem ParseUint_natDecimal (n : Nat) (hn : n ≤ maxUint64) :
    ParseUint (natDecimal (n + 1) n) = (n, none) := by
  unfold ParseUint
  rw [if_neg (natDecimal_ne_nil n n)]
  exact ParseUintLoop_natDecimal (n + 1) n (by omega) hn

theorem ParseInt_formatDecimal (v : Int) (h1 : -(2 ^ 63) ≤ v) (h2 : v < 2 ^ 63) :
    ParseInt (formatDecimal v) = (v, none) := by
  have hmax : maxUint64 = 18446744073709551615 := by decide
  have habs : v.natAbs ≤ 2 ^ 63 := by
    norm_num at h1 h2 ⊢
    omega
  have hU := ParseUint_natDecimal v.natAbs (by rw [hmax]; norm_num at habs; omega)
  unfold formatDecimal
  by_cases hv : v < 0
  · rw [if_pos hv]
    simp only [ParseInt, decide_True, or_true, if_true, hU, Bool.not_true, Bool.false_and,
      Bool.true_and, decide_eq_true_eq]
    have h3 : ¬ (v.natAbs > 2 ^ 63) := by omega
    simp only [Bool.false_eq_true, if_false, h3]
    rw [toInt64_neg_magnitude v.natAbs habs]
    congr 1
    omega
  · rw [if_neg hv]
    cases hd : natDecimal (v.natAbs + 1) v.natAbs with
    | nil => exact absurd hd (natDecimal_ne_nil _ _)
    | cons c t =>
      have hc : c ∈ natDecimal (v.natAbs + 1) v.natAbs := by rw [hd]; simp
      obtain ⟨k, hk, rfl⟩ := natDecimal_mem _ _ c hc
      have hf := digitChar_facts k hk
      rw [hd] at hU
      have hplus : ¬ (digitChar k = '+' ∨ digitChar k = '-') := by
        intro h
        rcases h with h | h
        · exact hf.2.2.2.2.1 h
        · exact hf.2.2.2.2.2 h
      simp only [ParseInt, hf.2.2.2.2.1, hf.2.2.2.2.2, or_self, if_false, hU, decide_False,
        Bool.not_false, Bool.true_and, Bool.false_and, decide_eq_true_eq]
      have h3 : ¬ (v.natAbs ≥ 2 ^ 63) := by
        norm_num at h2 ⊢
        omega
      simp only [Bool.false_eq_true, if_false, h3]
      have hcast : (v.natAbs : Int) = v := Int.natAbs_of_nonneg (by omega)
      rw [hcast, toInt64_of_range v h1 h2]

/-! ## `versionFromPath` on a base name that starts with a decimal number -/

theorem cutAtFirst_append (sep : Char) (d rest : List Char) (hd : ∀ c ∈ d, c ≠ sep) :
    cutAtFirst sep (d ++ sep :: rest) = some (d, rest) := by
  induction d with
  | nil => simp [cutAtFirst]
  | cons c t ih =>
    have hc : c ≠ sep := hd c (by simp)
    have ht : ∀ x ∈ t, x ≠ sep := fun x hx => hd x (by simp [hx])
    simp [cutAtFirst, hc, ih ht]

theorem SplitN_two_append (sep : Char) (d rest : List Char) (hd : ∀ c ∈ d, c ≠ sep) :
    SplitN (d ++ sep :: rest) sep 2 = [d, rest] := by
  simp [SplitN, cutAtFirst_append sep d rest hd]

theorem dropWhile_of_all_false (p : Char → Bool) (l : List Char) (h : ∀ c ∈ l, p c = false) :
    l.dropWhile p = l := by
  cases l with
  | nil => rfl
  | cons a t => simp [List.dropWhile, h a (by simp)]

theorem takeWhile_of_all_true (p : Char → Bool) (l : List Char) (h : ∀ c ∈ l, p c = true) :
    l.takeWhile p = l := by
  induction l with
  | nil => rfl
  | cons a t ih =>
    simp [List.takeWhile, h a (by simp), ih (fun c hc => h c (by simp [hc]))]

theorem filepathBase_of_no_separator (l : List Char) (hne : l ≠ [])
    (h : ∀ c ∈ l, IsPathSeparator c = false) : filepathBase l = l := by
  unfold filepathBase
  rw [if_neg hne]
  have h1 : l.reverse.dropWhile IsPathSeparator = l.reverse :=
    dropWhile_of_all_false _ _ (fun c hc => h c (List.mem_reverse.1 hc))
  simp only [h1, List.reverse_reverse]
  have h2 : l.reverse.takeWhile (fun c => !IsPathSeparator c) = l.reverse :=
    takeWhile_of_all_true _ _ (fun c hc => by simp [h c (List.mem_reverse.1 hc)])
  simp only [h2, List.reverse_reverse]
  rw [if_neg hne]

theorem formatDecimal_mem (v : Int) :
    ∀ c ∈ formatDecimal v, c = '-' ∨ ∃ k : Nat, k < 10 ∧ c = digitChar k := by
  intro c hc
  unfold formatDecimal at hc
  split at hc
  · simp at hc
    rcases hc with hc | hc
    · exact Or.inl hc
    · exact Or.inr (natDecimal_mem _ _ c hc)
  · exact Or.inr (natDecimal_mem _ _ c hc)

theorem formatDecimal_no_underscore (v : Int) : ∀ c ∈ formatDecimal v, c ≠ '_' := by
  intro c hc
  rcases formatDecimal_mem v c hc with h | ⟨k, hk, h⟩
  · rw [h]; decide
  · rw [h]; exact (digitChar_facts k hk).2.2.1

theorem formatDecimal_no_separator (v : Int) :
    ∀ c ∈ formatDecimal v, IsPathSeparator c = false := by
  intro c hc
  rcases formatDecimal_mem v c hc with h | ⟨k, hk, h⟩
  · rw [h]; decide
  · rw [h]
    have := (digitChar_facts k hk).2.2.2.1
    simpa [IsPathSeparator] using this

theorem versionFromPath_of_base (path : String) (v : Int) (rest : List Char)
    (h1 : -(2 ^ 63) ≤ v) (h2 : v < 2 ^ 63)
    (hbase : filepathBase path.data = formatDecimal v ++ '_' :: rest) :
    versionFromPath path = (v, none) := by
  unfold versionFromPath
  rw [hbase, SplitN_two_append '_' _ _ (formatDecimal_no_underscore v)]
  exact ParseInt_formatDecimal v h1 h2

/-! ## The generated name keeps away from the path separator -/

theorem nameNormalize_mem (s : List Char) : ∀ c ∈ nameNormalize s, c ∈ s ∨ c = '_' := by
  induction s using nameNormalize.induct with
  | case1 => intro c hc; simp [nameNormalize] at hc
  | case2 a => intro c hc; simp [nameNormalize] at hc; simp [hc]
  | case3 a b rest hcond ih =>
    intro c hc
    rw [nameNormalize, if_pos hcond] at hc
    simp at hc
    rcases hc with hc | hc | hc | hc
    · simp [hc]
    · exact Or.inr hc
    · simp [hc]
    · rcases ih c hc with h | h
      · exact Or.inl (by simp [h])
      · exact Or.inr h
  | case4 a b rest hcond ih =>
    intro c hc
    rw [nameNormalize, if_neg hcond] at hc
    simp at hc
    rcases hc with hc | hc
    · simp [hc]
    · rcases ih c hc with h | h
      · simp at h
        rcases h with h | h
        · exact Or.inl (by simp [h])
        · exact Or.inl (by simp [h])
      · exact Or.inr h

theorem unicodeToLower_no_separator (caseTable : Char → Char)
    (htable : ∀ r : Char, 127 < r.toNat → IsPathSeparator (caseTable r) = false)
    (r : Char) (hr : IsPathSeparator r = false) :
    IsPathSeparator (unicodeToLower caseTable r) = false := by
  unfold unicodeToLower
  split
  · split
    next hup =>
      have h65 : 65 ≤ r.toNat := hup.1
      have h90 : r.toNat ≤ 90 := hup.2
      generalize r.toNat = n at h65 h90
      interval_cases n <;> decide
    next => exact hr
  · exact htable r (by omega)

theorem generatedName_no_separator (caseTable : Char → Char)
    (htable : ∀ r : Char, 127 < r.toNat → IsPathSeparator (caseTable r) = false)
    (s : List Char) (hs : ∀ c ∈ s, IsPathSeparator c = false) :
    ∀ c ∈ ToLower caseTable (nameNormalize s), IsPathSeparator c = false := by
  intro c hc
  unfold ToLower at hc
  rw [List.mem_map] at hc
  obtain ⟨r, hr, rfl⟩ := hc
  apply unicodeToLower_no_separator caseTable htable
  rcases nameNormalize_mem s r hr with h | h
  · exact hs r h
  · rw [h]; decide

theorem versionFromPath_generateMigrationPath (caseTable : Char → Char)
    (htable : ∀ r : Char, 127 < r.toNat → IsPathSeparator (caseTable r) = false)
    (version : Int) (str : String) (h1 : -(2 ^ 63) ≤ version) (h2 : version < 2 ^ 63)
    (hstr : ∀ c ∈ str.data, IsPathSeparator c = false) :
    versionFromPath (generateMigrationPath caseTable version str) = (version, none) := by
  apply versionFromPath_of_base _ version (ToLower caseTable (nameNormalize str.data)) h1 h2
  unfold generateMigrationPath
  apply filepathBase_of_no_separator
  · simp
  · intro c hc
    simp only [List.mem_append, List.mem_cons] at hc
    rcases hc with hc | hc | hc
    · exact formatDecimal_no_separator version c hc
    · rw [hc]; decide
    · exact generatedName_no_separator caseTable htable str.data hstr c hc

theorem idTable_no_separator :
    ∀ r : Char, 127 < r.toNat → IsPathSeparator (id r) = false := by
  intro r hr
  show (r == '/') = false
  rw [beq_eq_false_iff_ne]
  intro h
  rw [h] at hr
  exact absurd hr (by decide)

/-! ## Reading a migration, and the order of the collaborators -/

/-- C18: `MigrationFromBytes(path, fn)`. When the base name of the path is a
decimal int64 v followed by an underscore (or, more generally, when
`versionFromPath` accepts the path with version v) and fn succeeds on the
joined name of up.sql, the result is a migration with Version v, that Path,
the bytes of up.sql, and as DownSQL whatever bytes fn returned for down.sql,
whether or not fn reported an error there; with no such bytes the migration is
not Reversible. It fails with the error of `versionFromPath` when the version
cannot be parsed, and with the error of fn when fn fails on up.sql. -/
theorem C18_MigrationFromBytes (filepathJoin : String → String → String) (path : String)
    (fn : String → Bytes × Option Error) :
    (∀ (v : Int) (rest : List Char) (up : Bytes),
        -(2 ^ 63) ≤ v → v < 2 ^ 63 →
        filepathBase path.data = formatDecimal v ++ '_' :: rest →
        fn (filepathJoin path "up.sql") = (up, none) →
        MigrationFromBytes filepathJoin path fn
            = Except.ok { UpSQL := up, DownSQL := (fn (filepathJoin path "down.sql")).1,
                          Path := path, Version := v }
          ∧ ((fn (filepathJoin path "down.sql")).1 = [] →
              ({ UpSQL := up, DownSQL := (fn (filepathJoin path "down.sql")).1,
                 Path := path, Version := v } : Migration).Reversible = false))
      ∧ (∀ (v : Int) (up : Bytes),
          versionFromPath path = (v, none) →
          fn (filepathJoin path "up.sql") = (up, none) →
          MigrationFromBytes filepathJoin path fn
            = Except.ok { UpSQL := up, DownSQL := (fn (filepathJoin path "down.sql")).1,
                          Path := path, Version := v })
      ∧ (∀ (v : Int) (err : Error),
          versionFromPath path = (v, some err) →
          MigrationFromBytes filepathJoin path fn = Except.error err)
      ∧ (∀ (v : Int) (up : Bytes) (err : Error),
          versionFromPath path = (v, none) →
          fn (filepathJoin path "up.sql") = (up, some err) →
          MigrationFromBytes filepathJoin path fn = Except.error err) := by
  refine ⟨?_, ?_, ?_, ?_⟩
  · intro v rest up h1 h2 hbase hup
    have hv := versionFromPath_of_base path v rest h1 h2 hbase
    constructor
    · simp [MigrationFromBytes, hv, hup]
    · intro hd
      simp [Migration.Reversible, hd]
  · intro v up hv hup
    simp [MigrationFromBytes, hv, hup]
  · intro v err hv
    simp [MigrationFromBytes, hv]
  · intro v up err hv hup
    simp [MigrationFromBytes, hv, hup]

/-- Witness of C18: the migration directory of the tests, read by a reader that
has up.sql and fails on down.sql. -/
theorem C18_MigrationFromBytes_witness :
    (-(2 ^ 63) ≤ (20170329154959 : Int) ∧ (20170329154959 : Int) < 2 ^ 63)
      ∧ filepathBase ("testdata/migrations/20170329154959_users" : String).data
          = formatDecimal 20170329154959 ++ '_' :: ['u', 's', 'e', 'r', 's']
      ∧ readerUpOnly (joinWithSlash "testdata/migrations/20170329154959_users" "up.sql")
          = ([67, 82, 69, 65, 84, 69, 32, 84, 65, 66, 76, 69, 32, 116], none)
      ∧ (readerUpOnly (joinWithSlash "testdata/migrations/20170329154959_users" "down.sql")).2
          = some (Error.other ("no such file"))
      ∧ MigrationFromBytes joinWithSlash "testdata/migrations/20170329154959_users" readerUpOnly
          = Except.ok
              { UpSQL := [67, 82, 69, 65, 84, 69, 32, 84, 65, 66, 76, 69, 32, 116]
                DownSQL :=
                  (readerUpOnly
                    (joinWithSlash "testdata/migrations/20170329154959_users" "down.sql")).1
                Path := "testdata/migrations/20170329154959_users"
                Version := 20170329154959 }
      ∧ ({ UpSQL := [67, 82, 69, 65, 84, 69, 32, 84, 65, 66, 76, 69, 32, 116]
           DownSQL :=
             (readerUpOnly
               (joinWithSlash "testdata/migrations/20170329154959_users" "down.sql")).1
           Path := "testdata/migrations/20170329154959_users"
           Version := 20170329154959 } : Migration).Reversible = false
      ∧ versionFromPath "testdata/migrations/users" = (0, some ErrSyntax)
      ∧ MigrationFromBytes joinWithSlash "testdata/migrations/users" readerUpOnly
          = Except.error ErrSyntax :=
  ⟨⟨by decide, by decide⟩, by decide, by decide, by decide,
    ((C18_MigrationFromBytes joinWithSlash "testdata/migrations/20170329154959_users"
      readerUpOnly).1 20170329154959 ['u', 's', 'e', 'r', 's'] _ (by decide) (by decide)
      (by decide) (by decide)).1,
    ((C18_MigrationFromBytes joinWithSlash "testdata/migrations/20170329154959_users"
      readerUpOnly).1 20170329154959 ['u', 's', 'e', 'r', 's'] _ (by decide) (by decide)
      (by decide) (by decide)).2 (by decide),
    by decide,
    (C18_MigrationFromBytes joinWithSlash "testdata/migrations/users" readerUpOnly).2.2.1
      0 ErrSyntax (by decide)⟩

/-- C20: a generated migration path parses back to its version. For every int64
version and every name without a path separator,
`versionFromPath(generateMigrationPath(version, str))` is the version with no
error, so the Path and the Version of a `GenerateMigration` result agree. (The
case tables of package unicode are a parameter; all that is used of them is
that no rune beyond ASCII is lower-cased to the path separator.) -/
theorem C20_generated_path_parses_back (caseTable : Char → Char)
    (htable : ∀ r : Char, 127 < r.toNat → IsPathSeparator (caseTable r) = false)
    (version : Int) (str : String) (h1 : -(2 ^ 63) ≤ version) (h2 : version < 2 ^ 63)
    (hstr : ∀ c ∈ str.data, IsPathSeparator c = false) :
    versionFromPath (generateMigrationPath caseTable version str) = (version, none)
      ∧ versionFromPath (GenerateMigration caseTable version str).Path
          = ((GenerateMigration caseTable version str).Version, none) := by
  have h := versionFromPath_generateMigrationPath caseTable htable version str h1 h2 hstr
  exact ⟨h, h⟩

/-- Witness of C20: the name "AddUsersTable" at version 20170329154959, with the
identity for the runes beyond ASCII. -/
theorem C20_generated_path_parses_back_witness :
    (∀ r : Char, 127 < r.toNat → IsPathSeparator (id r) = false)
      ∧ (-(2 ^ 63) ≤ (20170329154959 : Int) ∧ (20170329154959 : Int) < 2 ^ 63)
      ∧ (∀ c ∈ ("AddUsersTable" : String).data, IsPathSeparator c = false)
      ∧ generateMigrationPath id 20170329154959 "AddUsersTable"
          = "20170329154959_add_users_table"
      ∧ versionFromPath (generateMigrationPath id 20170329154959 "AddUsersTable")
          = (20170329154959, none)
      ∧ versionFromPath (GenerateMigration id 20170329154959 "AddUsersTable").Path
          = ((GenerateMigration id 20170329154959 "AddUsersTable").Version, none) :=
  ⟨idTable_no_separator, ⟨by decide, by decide⟩, by decide, by decide,
    (C20_generated_path_parses_back id
      idTable_no_separator
      20170329154959 "AddUsersTable" (by decide) (by decide) (by decide)).1,
    (C20_generated_path_parses_back id
      idTable_no_separator
      20170329154959 "AddUsersTable" (by decide) (by decide) (by decide)).2⟩

theorem Perm_versions_mem {A A2 : Migrations} (h : A2.Perm A) (v : Int) :
    v ∈ A2.versions ↔ v ∈ A.versions :=
  (h.map Migration.Version).mem_iff

theorem Except_perm {A B A2 B2 : Migrations} (hA : A2.Perm A) (hB : B2.Perm B) :
    (A2.Except B2).Perm (A.Except B) := by
  rw [Except_eq, Except_eq]
  apply List.Perm.append
  · have e : A2.filter (fun x => decide (x.Version ∉ B2.versions))
        = A2.filter (fun x => decide (x.Version ∉ B.versions)) := by
      apply List.filter_congr
      intro x _
      simp [Perm_versions_mem hB]
    rw [e]
    exact hA.filter _
  · have e : B2.filter (fun x => decide (x.Version ∉ A2.versions))
        = B2.filter (fun x => decide (x.Version ∉ A.versions)) := by
      apply List.filter_congr
      intro x _
      simp [Perm_versions_mem hA]
    rw [e]
    exact hB.filter _

theorem Except_versions_nodup (A B : Migrations) (hA : A.versions.Nodup)
    (hB : B.versions.Nodup) : (A.Except B).versions.Nodup := by
  rw [Except_eq]
  unfold Migrations.versions at *
  rw [List.map_append]
  apply List.Nodup.append
  · exact hA.sublist ((List.filter_sublist A).map _)
  · exact hB.sublist ((List.filter_sublist B).map _)
  · intro v h1 h2
    rw [List.mem_map] at h1 h2
    obtain ⟨x, hx, rfl⟩ := h1
    obtain ⟨y, hy, hyx⟩ := h2
    rw [List.mem_filter] at hx hy
    have hn := hy.2
    simp only [decide_eq_true_eq, List.mem_map, not_exists, not_and] at hn
    exact hn x hx.1 hyx.symm

theorem strictly_ascending (r : Migrations) (ha : r.Ascending) (hn : r.versions.Nodup) :
    r.Pairwise (fun a b => a.Version < b.Version) := by
  unfold Migrations.Ascending at ha
  unfold Migrations.versions at hn
  have hne : r.Pairwise (fun a b => a.Version ≠ b.Version) := by
    have := hn
    unfold List.Nodup at this
    rwa [List.pairwise_map] at this
  exact (ha.and hne).imp (fun h => lt_of_le_of_ne h.1 h.2)

theorem sorted_perm_unique (r1 r2 : Migrations) (hp : r1.Perm r2)
    (h1 : r1.Ascending) (h2 : r2.Ascending) (hn : r2.versions.Nodup) : r1 = r2 := by
  have hn1 : r1.versions.Nodup := ((hp.map Migration.Version).nodup_iff).2 hn
  have s1 := strictly_ascending r1 h1 hn1
  have s2 := strictly_ascending r2 h2 hn
  haveI : IsAntisymm Migration (fun a b => a.Version < b.Version) :=
    ⟨fun a b hab hba => absurd hab (not_lt.2 (le_of_lt hba))⟩
  exact List.eq_of_perm_of_sorted hp s1 s2

theorem Sort_Except_order_independent (sortSort : Migrations → Migrations)
    (hsort : SortContract sortSort) (A B A2 B2 : Migrations)
    (hA : A.versions.Nodup) (hB : B.versions.Nodup)
    (hpA : A2.Perm A) (hpB : B2.Perm B) :
    (A2.Except B2).Sort sortSort = (A.Except B).Sort sortSort := by
  apply sorted_perm_unique
  · exact ((SortContract_perm hsort _).trans (Except_perm hpA hpB)).trans
      (SortContract_perm hsort _).symm
  · exact SortContract_ascending hsort _
  · exact SortContract_ascending hsort _
  · exact (((SortContract_perm hsort (A.Except B)).map Migration.Version).nodup_iff).2
      (Except_versions_nodup A B hA hB)

/-- C19: `UnappliedMigrations` does not depend on the order in which the
collaborators hand over their migrations. For collections A and B, each with
pairwise distinct Versions, and permutations A2 of A and B2 of B, a run whose
source returns A2 and whose store returns B2 gives the same list as a run whose
source returns A and whose store returns B. -/
theorem C19_Unapplied_order_independent {σ : Type} (sortSort : Migrations → Migrations)
    (hsort : SortContract sortSort)
    (source source2 : Source σ) (store store2 : Store σ) (w w1 w2 v v1 v2 : σ)
    (A B A2 B2 : Migrations)
    (hA : A.versions.Nodup) (hB : B.versions.Nodup)
    (hpA : A2.Perm A) (hpB : B2.Perm B)
    (hs : source.Collect w = (Except.ok A, w1)) (ht : store.Collect w1 = (Except.ok B, w2))
    (hs2 : source2.Collect v = (Except.ok A2, v1))
    (ht2 : store2.Collect v1 = (Except.ok B2, v2)) :
    (UnappliedMigrations sortSort source2 store2 (Run.start v)).1
      = (UnappliedMigrations sortSort source store (Run.start w)).1 := by
  rw [UnappliedMigrations_ok sortSort source store w w1 w2 A B hs ht,
    UnappliedMigrations_ok sortSort source2 store2 v v1 v2 A2 B2 hs2 ht2]
  simp only
  rw [Sort_Except_order_independent sortSort hsort A B A2 B2 hA hB hpA hpB]

/-- Witness of C19: declared 10, 20, 30 and applied 20, 40, against the same
migrations handed over in another order. -/
theorem C19_Unapplied_order_independent_witness :
    SortContract sortInsertion
      ∧ (Migrations.versions [mkVersion 10, mkVersion 20, mkVersion 30]).Nodup
      ∧ (Migrations.versions [mkVersion 20, mkVersion 40]).Nodup
      ∧ List.Perm [mkVersion 30, mkVersion 10, mkVersion 20]
          [mkVersion 10, mkVersion 20, mkVersion 30]
      ∧ List.Perm [mkVersion 40, mkVersion 20] [mkVersion 20, mkVersion 40]
      ∧ (UnappliedMigrations sortInsertion
            (fixedSource [mkVersion 30, mkVersion 10, mkVersion 20])
            (fixedStore [mkVersion 40, mkVersion 20]) (Run.start 0)).1
          = (UnappliedMigrations sortInsertion
              (fixedSource [mkVersion 10, mkVersion 20, mkVersion 30])
              (fixedStore [mkVersion 20, mkVersion 40]) (Run.start 0)).1 :=
  ⟨sortInsertion_contract, by decide, by decide, by decide, by decide,
    C19_Unapplied_order_independent sortInsertion sortInsertion_contract
      (fixedSource [mkVersion 10, mkVersion 20, mkVersion 30])
      (fixedSource [mkVersion 30, mkVersion 10, mkVersion 20])
      (fixedStore [mkVersion 20, mkVersion 40]) (fixedStore [mkVersion 40, mkVersion 20])
      0 1 2 0 1 2 _ _ _ _ (by decide) (by decide) (by decide) (by decide) rfl rfl rfl rfl⟩

end Gloat
